import Mathlib

/-!
# Verification of the bp-telemetry-core event-processing pipeline

A shallow embedding, in Lean 4, of the fast-path consumer, the slow-path
worker base, the shared metrics state and the metrics calculator of the
`bp-telemetry-core` repository, together with theorems settling the frozen
specification claims about them.

Conventions:
* Python dictionaries produced by `json.loads` are modelled by the mutual
  inductive `JValue` / `JArr` / `JObj` (JSON values, arrays, objects).
  JSON numbers are modelled as integers; none of the verified code paths
  construct fractional JSON numbers.
* Machine floats that only ever hold epoch seconds or millisecond counts
  are modelled as rationals (`Rat`).
* Redis primitives (sorted sets, hashes, stream acknowledgment state) are
  modelled by explicit pure state, following the Redis data-type semantics
  the code relies on (sorted sets keyed by member with score updates,
  per-group pending-entry lists with delivery counts).
-/

namespace BpTelemetry

mutual

/-- JSON values as produced by Python `json.loads` / consumed by
`json.dumps`.  Numbers are modelled by integers (the pipeline's events
carry string fields, integer counters and nested objects). -/
inductive JValue where
| null : JValue
| bool (b : Bool) : JValue
| int (n : Int) : JValue
| str (s : String) : JValue
| arr (xs : JArr) : JValue
| obj (ms : JObj) : JValue
deriving DecidableEq

inductive JArr where
| nil : JArr
| cons (v : JValue) (tl : JArr) : JArr
deriving DecidableEq

inductive JObj where
| nil : JObj
| cons (k : String) (v : JValue) (tl : JObj) : JObj
deriving DecidableEq

end

/-- Dictionary lookup, as Python `dict.get(k)` (first binding wins;
`json.loads` keeps the last duplicate key, but the pipeline never builds
duplicate keys, and our serializer is only applied to such objects). -/
def JObj.lookup : JObj → String → Option JValue
| .nil, _ => none
| .cons k v tl, key => if k = key then some v else JObj.lookup tl key

/-- Python `dict.get(k, default)`. -/
def JObj.getD (o : JObj) (key : String) (d : JValue) : JValue :=
  (o.lookup key).getD d

/-- Number of members of an object. -/
def JObj.length : JObj → Nat
| .nil => 0
| .cons _ _ tl => 1 + JObj.length tl

/-! ## Decimal and hexadecimal digits

`json.dumps` renders integers with Python `str(int)` (decimal, `-` sign)
and renders escaped characters with `%04x` (four lowercase hex digits). -/

/-- The character of a decimal digit. -/
def digChar (d : Nat) : Char :=
  Char.ofNat (48 + d)

/-- The numeric value of a decimal digit character, if it is one. -/
def digVal (c : Char) : Option Nat :=
  if 48 ≤ c.toNat ∧ c.toNat ≤ 57 then some (c.toNat - 48) else none

/-- Decimal rendering of a natural number, as Python `str`. -/
def natChars (n : Nat) : List Char :=
  if n = 0 then ['0'] else ((Nat.digits 10 n).map digChar).reverse

/-- Decimal rendering of an integer, as Python `str`. -/
def intChars (n : Int) : List Char :=
  if n < 0 then '-' :: natChars n.natAbs else natChars n.natAbs

/-- The character of a hexadecimal digit, lowercase (Python `%x`). -/
def hexChar (d : Nat) : Char :=
  if d < 10 then Char.ofNat (48 + d) else Char.ofNat (87 + d)

/-- The numeric value of a hexadecimal digit character (either case), as
accepted by the `\uXXXX` parser of `json.loads` (`int(s, 16)`). -/
def hexVal (c : Char) : Option Nat :=
  if 48 ≤ c.toNat ∧ c.toNat ≤ 57 then some (c.toNat - 48)
  else if 97 ≤ c.toNat ∧ c.toNat ≤ 102 then some (c.toNat - 87)
  else if 65 ≤ c.toNat ∧ c.toNat ≤ 70 then some (c.toNat - 55)
  else none

/-- Python `%04x`: four lowercase hex digits of a value below 2^16. -/
def hex4 (n : Nat) : List Char :=
  [hexChar (n / 4096 % 16), hexChar (n / 256 % 16),
   hexChar (n / 16 % 16), hexChar (n % 16)]

/-! ## String escaping (`json.dumps`, default `ensure_ascii=True`)

Characters in `0x20 .. 0x7e` other than `"` and `\` are emitted verbatim;
the short escapes `\" \\ \b \f \n \r \t` are used where defined; every
other character is emitted as `\uXXXX`, with a UTF-16 surrogate pair for
code points above `0xFFFF`. -/

/-- Escape one character as `json.dumps` (with `ensure_ascii=True`) does. -/
def escChar (c : Char) : List Char :=
  if c = '"' then ['\\', '"']
  else if c = '\\' then ['\\', '\\']
  else if c = '\x08' then ['\\', 'b']
  else if c = '\x0c' then ['\\', 'f']
  else if c = '\n' then ['\\', 'n']
  else if c = '\x0d' then ['\\', 'r']
  else if c = '\t' then ['\\', 't']
  else if 32 ≤ c.toNat ∧ c.toNat ≤ 126 then [c]
  else if c.toNat < 65536 then '\\' :: 'u' :: hex4 c.toNat
  else
    ('\\' :: 'u' :: hex4 (55296 + (c.toNat - 65536) / 1024)) ++
      ('\\' :: 'u' :: hex4 (56320 + (c.toNat - 65536) % 1024))

/-- The body of a serialized JSON string (no surrounding quotes). -/
def escBody (s : String) : List Char :=
  s.data.flatMap escChar

/-- A serialized JSON string, quotes included. -/
def serStr (s : String) : List Char :=
  '"' :: escBody s ++ ['"']

/-! ## `json.dumps(event, separators=(',', ':'))`

The compact serializer used by `SQLiteBatchWriter.compress_event`
(`src/src/blueplane/processing/database/writer.py`, line 54): no spaces,
`,` between items, `:` between keys and values, `ensure_ascii` default. -/

mutual

/-- Serialize one JSON value, compact form. -/
def dumpVal : JValue → List Char
| .null => ['n', 'u', 'l', 'l']
| .bool b => if b then ['t', 'r', 'u', 'e'] else ['f', 'a', 'l', 's', 'e']
| .int n => intChars n
| .str s => serStr s
| .arr .nil => ['[', ']']
| .arr (.cons v tl) => '[' :: (dumpVal v ++ dumpArrTail tl ++ [']'])
| .obj .nil => ['{', '}']
| .obj (.cons k v tl) =>
    '{' :: (serStr k ++ ':' :: dumpVal v ++ dumpObjTail tl ++ ['}'])

/-- Serialize the remaining items of a non-empty array. -/
def dumpArrTail : JArr → List Char
| .nil => []
| .cons v tl => ',' :: dumpVal v ++ dumpArrTail tl

/-- Serialize the remaining members of a non-empty object. -/
def dumpObjTail : JObj → List Char
| .nil => []
| .cons k v tl => ',' :: serStr k ++ ':' :: dumpVal v ++ dumpObjTail tl

end

/-! ## `json.loads`

A recursive-descent parser following the CPython `json` scanner: JSON
whitespace skipping, strict string decoding (control characters rejected,
`\uXXXX` escapes with UTF-16 surrogate pairs), and the number grammar
`-?(0|[1-9][0-9]*)` — fractional and exponent forms fall outside the
integer-valued model and are rejected, and lone surrogates (which Lean
strings cannot represent) are rejected. -/

/-- JSON whitespace skipping (space, tab, line feed, carriage return). -/
def skipWs : List Char → List Char
| [] => []
| c :: cs =>
  if c = ' ' ∨ c = '\t' ∨ c = '\n' ∨ c = '\x0d' then skipWs cs else c :: cs

/-- The value of four hex digit characters, as `int(s, 16)` on a `\uXXXX`
escape. -/
def hexQuad (a b c d : Char) : Option Nat :=
  match hexVal a, hexVal b, hexVal c, hexVal d with
  | some ha, some hb, some hc, some hd => some (ha * 4096 + hb * 256 + hc * 16 + hd)
  | _, _, _, _ => none

mutual

/-- Decode the body of a JSON string after the opening quote, with an
accumulator of already-decoded characters in reverse order. -/
def parseStrBody : List Char → List Char → Option (String × List Char)
| _, [] => none
| acc, c :: rest =>
  if c = '"' then some (String.mk acc.reverse, rest)
  else if c = '\\' then parseEscape acc rest
  else if c.toNat < 32 then none
  else parseStrBody (c :: acc) rest
termination_by _ l => l.length

/-- Decode one escape sequence (the characters after a backslash). -/
def parseEscape : List Char → List Char → Option (String × List Char)
| acc, 'u' :: a :: b :: c :: d :: rest =>
  (match hexQuad a b c d with
   | some n =>
     if 55296 ≤ n ∧ n ≤ 56319 then parseLowSurrogate n acc rest
     else if 56320 ≤ n ∧ n ≤ 57343 then none
     else parseStrBody (Char.ofNat n :: acc) rest
   | none => none)
| acc, e :: rest =>
  if e = '"' then parseStrBody ('"' :: acc) rest
  else if e = '\\' then parseStrBody ('\\' :: acc) rest
  else if e = '/' then parseStrBody ('/' :: acc) rest
  else if e = 'b' then parseStrBody ('\x08' :: acc) rest
  else if e = 'f' then parseStrBody ('\x0c' :: acc) rest
  else if e = 'n' then parseStrBody ('\n' :: acc) rest
  else if e = 'r' then parseStrBody ('\x0d' :: acc) rest
  else if e = 't' then parseStrBody ('\t' :: acc) rest
  else none
| _, [] => none
termination_by _ l => l.length

/-- After a high surrogate `\uXXXX`, decode the mandatory low surrogate
and combine the pair into one code point. -/
def parseLowSurrogate : Nat → List Char → List Char → Option (String × List Char)
| n, acc, '\\' :: 'u' :: e :: f :: g :: h :: rest =>
  (match hexQuad e f g h with
   | some m =>
     if 56320 ≤ m ∧ m ≤ 57343 then
       parseStrBody (Char.ofNat (65536 + (n - 55296) * 1024 + (m - 56320)) :: acc) rest
     else none
   | none => none)
| _, _, _ => none
termination_by _ _ l => l.length

end

/-- Consume a maximal run of decimal digits. -/
def takeDigits : List Char → List Nat × List Char
| [] => ([], [])
| c :: cs =>
  match digVal c with
  | some d => ((takeDigits cs).1.cons d, (takeDigits cs).2)
  | none => ([], c :: cs)

/-- True when the next character would extend the number into a fractional
or exponent form (a float in Python, outside the integer model). -/
def floatFollows : List Char → Bool
| c :: _ => c = '.' || c = 'e' || c = 'E'
| [] => false

/-- Parse an unsigned JSON integer: `0` or a nonzero digit followed by a
maximal digit run (the CPython grammar matches at most a single `0` when
the first digit is zero). -/
def parseNumNat (cs : List Char) : Option (Nat × List Char) :=
  match cs with
  | c :: tl =>
    (match digVal c with
     | some d =>
       if d = 0 then
         if floatFollows tl then none else some (0, tl)
       else
         let p := takeDigits tl
         if floatFollows p.2 then none
         else some (Nat.ofDigits 10 (d :: p.1).reverse, p.2)
     | none => none)
  | [] => none

/-- Parse a JSON integer with optional leading minus sign. -/
def parseNum (cs : List Char) : Option (Int × List Char) :=
  match cs with
  | [] => none
  | c :: tl =>
    if c = '-' then
      match parseNumNat tl with
      | some (n, rest) => some (-(n : Int), rest)
      | none => none
    else
      match parseNumNat (c :: tl) with
      | some (n, rest) => some ((n : Int), rest)
      | none => none

mutual

/-- Parse one JSON value.  The fuel bounds the nesting of recursive
descent; `jsonParse` supplies input length + 1, which always suffices. -/
def parseVal : Nat → List Char → Option (JValue × List Char)
| 0, _ => none
| fuel + 1, cs =>
  match skipWs cs with
  | [] => none
  | c :: r =>
    if c = 'n' then
      match r with
      | 'u' :: 'l' :: 'l' :: rest => some (.null, rest)
      | _ => none
    else if c = 't' then
      match r with
      | 'r' :: 'u' :: 'e' :: rest => some (.bool true, rest)
      | _ => none
    else if c = 'f' then
      match r with
      | 'a' :: 'l' :: 's' :: 'e' :: rest => some (.bool false, rest)
      | _ => none
    else if c = '"' then
      match parseStrBody [] r with
      | some (s, rest2) => some (.str s, rest2)
      | none => none
    else if c = '[' then
      match skipWs r with
      | [] => none
      | c2 :: r2 =>
        if c2 = ']' then some (.arr .nil, r2)
        else
          match parseArrItems fuel (c2 :: r2) with
          | some (xs, rest2) => some (.arr xs, rest2)
          | none => none
    else if c = '{' then
      match skipWs r with
      | [] => none
      | c2 :: r2 =>
        if c2 = '}' then some (.obj .nil, r2)
        else
          match parseObjItems fuel (c2 :: r2) with
          | some (ms, rest2) => some (.obj ms, rest2)
          | none => none
    else
      match parseNum (c :: r) with
      | some (n, rest) => some (.int n, rest)
      | none => none

/-- Parse the items of a non-empty array up to and including `]`. -/
def parseArrItems : Nat → List Char → Option (JArr × List Char)
| 0, _ => none
| fuel + 1, cs =>
  match parseVal fuel cs with
  | some (v, rest) =>
    (match skipWs rest with
     | ',' :: rest2 =>
       (match parseArrItems fuel rest2 with
        | some (tl, rest3) => some (.cons v tl, rest3)
        | none => none)
     | ']' :: rest2 => some (.cons v .nil, rest2)
     | _ => none)
  | none => none

/-- Parse the members of a non-empty object up to and including the
closing brace. -/
def parseObjItems : Nat → List Char → Option (JObj × List Char)
| 0, _ => none
| fuel + 1, cs =>
  match skipWs cs with
  | '"' :: rest =>
    (match parseStrBody [] rest with
     | some (k, rest1) =>
       (match skipWs rest1 with
        | ':' :: rest2 =>
          (match parseVal fuel rest2 with
           | some (v, rest3) =>
             (match skipWs rest3 with
              | ',' :: rest4 =>
                (match parseObjItems fuel rest4 with
                 | some (tl, rest5) => some (.cons k v tl, rest5)
                 | none => none)
              | '}' :: rest4 => some (.cons k v .nil, rest4)
              | _ => none)
           | none => none)
        | _ => none)
     | none => none)
  | _ => none

end

/-- `json.loads` on a character sequence: one value, trailing whitespace
only ("Extra data" rejected). -/
def jsonParse (s : List Char) : Option JValue :=
  match parseVal (s.length + 1) s with
  | some (v, rest) => if skipWs rest = [] then some v else none
  | none => none

/-! ## Round trip: the parser inverts the compact serializer -/

/-- The characters following a serialized value never extend it: the next
character (if any) is not a digit and not a fraction/exponent marker.
Inside arrays and objects the next character is `,`, `]` or the closing
brace, which satisfy this. -/
def numBoundary : List Char → Prop
| [] => True
| c :: _ => digVal c = none ∧ c ≠ '.' ∧ c ≠ 'e' ∧ c ≠ 'E'

theorem digVal_digChar {d : Nat} (h : d < 10) : digVal (digChar d) = some d := by
  interval_cases d <;> decide

theorem digChar_facts {d : Nat} (h : d < 10) :
    digChar d ≠ 'n' ∧ digChar d ≠ 't' ∧ digChar d ≠ 'f' ∧ digChar d ≠ '"' ∧
    digChar d ≠ '[' ∧ digChar d ≠ '{' ∧ digChar d ≠ '-' ∧ digChar d ≠ ']' ∧
    digChar d ≠ '}' ∧
    ¬(digChar d = ' ' ∨ digChar d = '\t' ∨ digChar d = '\n' ∨ digChar d = '\x0d') := by
  interval_cases d <;> decide

theorem floatFollows_eq_false {rest : List Char} (h : numBoundary rest) :
    floatFollows rest = false := by
  cases rest with
  | nil => rfl
  | cons c tl =>
    obtain ⟨-, h1, h2, h3⟩ := h
    simp [floatFollows, h1, h2, h3]

theorem takeDigits_map_digChar {ds : List Nat} (hds : ∀ d ∈ ds, d < 10)
    {rest : List Char} (hrest : numBoundary rest) :
    takeDigits (ds.map digChar ++ rest) = (ds, rest) := by
  induction ds with
  | nil =>
    cases rest with
    | nil => rfl
    | cons c tl => simp [takeDigits, hrest.1]
  | cons d ds ih =>
    have hd : d < 10 := hds d (by simp)
    have := ih (fun x hx => hds x (by simp [hx]))
    simp [takeDigits, digVal_digChar hd, this]

theorem parseNumNat_natChars (n : Nat) {rest : List Char} (hrest : numBoundary rest) :
    parseNumNat (natChars n ++ rest) = some (n, rest) := by
  by_cases h0 : n = 0
  · subst h0
    simp [natChars, parseNumNat, digVal, floatFollows_eq_false hrest]
  · have hdig : Nat.digits 10 n ≠ [] := Nat.digits_ne_nil_iff_ne_zero.mpr h0
    obtain ⟨L, a, hL⟩ := (Nat.digits 10 n).eq_nil_or_concat.resolve_left hdig
    rw [List.concat_eq_append] at hL
    have ha10 : a < 10 :=
      Nat.digits_lt_base (by norm_num) (by rw [hL]; exact List.mem_append_right _ (by simp))
    have ha0 : a ≠ 0 := by
      have h2 := Nat.getLast_digit_ne_zero 10 h0
      have h3 : (Nat.digits 10 n).getLast? = some a := by rw [hL]; simp
      rw [List.getLast?_eq_getLast _ hdig, Option.some_inj] at h3
      rwa [h3] at h2
    have hnat : natChars n = digChar a :: L.reverse.map digChar := by
      simp [natChars, h0, hL, List.map_reverse]
    rw [hnat]
    have hLlt : ∀ d ∈ L.reverse, d < 10 := by
      intro d hd
      exact Nat.digits_lt_base (by norm_num)
        (by rw [hL]; exact List.mem_append_left _ (List.mem_reverse.mp hd))
    simp only [List.cons_append, parseNumNat, digVal_digChar ha10,
      if_neg ha0, takeDigits_map_digChar hLlt hrest, floatFollows_eq_false hrest]
    simp only [Bool.false_eq_true, if_false, List.reverse_cons, List.reverse_reverse,
      ← hL, Nat.ofDigits_digits]

theorem natChars_head (n : Nat) : ∃ a tl, a < 10 ∧ natChars n = digChar a :: tl := by
  by_cases h0 : n = 0
  · exact ⟨0, [], by norm_num, by subst h0; decide⟩
  · have hdig : Nat.digits 10 n ≠ [] := Nat.digits_ne_nil_iff_ne_zero.mpr h0
    obtain ⟨L, a, hL⟩ := (Nat.digits 10 n).eq_nil_or_concat.resolve_left hdig
    rw [List.concat_eq_append] at hL
    refine ⟨a, L.reverse.map digChar,
      Nat.digits_lt_base (by norm_num) (by rw [hL]; exact List.mem_append_right _ (by simp)),
      ?_⟩
    simp [natChars, h0, hL, List.map_reverse]

theorem parseNum_intChars (n : Int) {rest : List Char} (hrest : numBoundary rest) :
    parseNum (intChars n ++ rest) = some (n, rest) := by
  by_cases hneg : n < 0
  · have h1 : intChars n = '-' :: natChars n.natAbs := by simp [intChars, hneg]
    rw [h1, List.cons_append]
    have h2 : parseNum ('-' :: (natChars n.natAbs ++ rest)) =
        match parseNumNat (natChars n.natAbs ++ rest) with
        | some (m, r) => some (-(m : Int), r)
        | none => none := by
      simp [parseNum]
    rw [h2, parseNumNat_natChars n.natAbs hrest]
    have h3 : (-(n.natAbs : Int)) = n := by omega
    show some (-(n.natAbs : Int), rest) = some (n, rest)
    rw [h3]
  · obtain ⟨a, tl, ha, htl⟩ := natChars_head n.natAbs
    have hne : digChar a ≠ '-' := (digChar_facts ha).2.2.2.2.2.2.1
    have h1 : intChars n = natChars n.natAbs := by simp [intChars, hneg]
    rw [h1, htl, List.cons_append]
    simp only [parseNum, if_neg hne]
    rw [← List.cons_append, ← htl, parseNumNat_natChars n.natAbs hrest]
    simp
    omega


theorem hexVal_hexChar {d : Nat} (h : d < 16) : hexVal (hexChar d) = some d := by
  interval_cases d <;> decide

theorem char_scalar_range (c : Char) :
    c.toNat < 55296 ∨ (57343 < c.toNat ∧ c.toNat < 1114112) := c.valid

theorem hexQuad_hexChar {x y z w : Nat} (hx : x < 16) (hy : y < 16) (hz : z < 16)
    (hw : w < 16) :
    hexQuad (hexChar x) (hexChar y) (hexChar z) (hexChar w) =
      some (x * 4096 + y * 256 + z * 16 + w) := by
  unfold hexQuad
  rw [hexVal_hexChar hx, hexVal_hexChar hy, hexVal_hexChar hz, hexVal_hexChar hw]

theorem parseStrBody_quote (acc rest : List Char) :
    parseStrBody acc ('"' :: rest) = some (String.mk acc.reverse, rest) := by
  rw [parseStrBody]
  simp

theorem parseStrBody_backslash (acc rest : List Char) :
    parseStrBody acc ('\\' :: rest) = parseEscape acc rest := by
  rw [parseStrBody]
  simp

theorem parseStrBody_plain {c : Char} (hq : ¬c = '"') (hbs : ¬c = '\\')
    (hge : ¬c.toNat < 32) (acc rest : List Char) :
    parseStrBody acc (c :: rest) = parseStrBody (c :: acc) rest := by
  rw [parseStrBody]
  rw [if_neg hq, if_neg hbs, if_neg hge]

theorem parseEscape_quote (acc rest : List Char) :
    parseEscape acc ('"' :: rest) = parseStrBody ('"' :: acc) rest := by
  rw [parseEscape]
  simp
  exact fun a b c d r h _ => absurd h (by decide)

theorem parseEscape_backslash (acc rest : List Char) :
    parseEscape acc ('\\' :: rest) = parseStrBody ('\\' :: acc) rest := by
  rw [parseEscape]
  simp
  exact fun a b c d r h _ => absurd h (by decide)

theorem parseEscape_b (acc rest : List Char) :
    parseEscape acc ('b' :: rest) = parseStrBody ('\x08' :: acc) rest := by
  rw [parseEscape]
  simp
  exact fun a b c d r h _ => absurd h (by decide)

theorem parseEscape_f (acc rest : List Char) :
    parseEscape acc ('f' :: rest) = parseStrBody ('\x0c' :: acc) rest := by
  rw [parseEscape]
  simp
  exact fun a b c d r h _ => absurd h (by decide)

theorem parseEscape_n (acc rest : List Char) :
    parseEscape acc ('n' :: rest) = parseStrBody ('\n' :: acc) rest := by
  rw [parseEscape]
  simp
  exact fun a b c d r h _ => absurd h (by decide)

theorem parseEscape_r (acc rest : List Char) :
    parseEscape acc ('r' :: rest) = parseStrBody ('\x0d' :: acc) rest := by
  rw [parseEscape]
  simp
  exact fun a b c d r h _ => absurd h (by decide)

theorem parseEscape_t (acc rest : List Char) :
    parseEscape acc ('t' :: rest) = parseStrBody ('\t' :: acc) rest := by
  rw [parseEscape]
  simp
  exact fun a b c d r h _ => absurd h (by decide)

theorem hexQuad_hex4 {n : Nat} (hn : n < 65536) :
    hexQuad (hexChar (n / 4096 % 16)) (hexChar (n / 256 % 16))
      (hexChar (n / 16 % 16)) (hexChar (n % 16)) = some n := by
  rw [hexQuad_hexChar (by omega) (by omega) (by omega) (by omega)]
  congr 1
  omega

theorem parseEscape_hex {n : Nat} (hn : n < 65536)
    (hs1 : ¬(55296 ≤ n ∧ n ≤ 56319)) (hs2 : ¬(56320 ≤ n ∧ n ≤ 57343))
    (acc rest : List Char) :
    parseEscape acc ('u' :: (hex4 n ++ rest)) =
      parseStrBody (Char.ofNat n :: acc) rest := by
  simp only [hex4, List.cons_append, List.nil_append]
  rw [parseEscape]
  rw [hexQuad_hex4 hn]
  simp only []
  rw [if_neg hs1, if_neg hs2]

theorem parseEscape_surrogatePair {n : Nat} (hn : 65536 ≤ n) (hn2 : n < 1114112)
    (acc rest : List Char) :
    parseEscape acc
        ('u' :: (hex4 (55296 + (n - 65536) / 1024) ++
          ('\\' :: 'u' :: (hex4 (56320 + (n - 65536) % 1024) ++ rest)))) =
      parseStrBody (Char.ofNat n :: acc) rest := by
  have hdiv : (n - 65536) / 1024 < 1024 := by omega
  simp only [hex4, List.cons_append, List.nil_append]
  rw [parseEscape]
  rw [hexQuad_hex4 (by omega : 55296 + (n - 65536) / 1024 < 65536)]
  simp only []
  rw [if_pos (by omega : 55296 ≤ 55296 + (n - 65536) / 1024 ∧ 55296 + (n - 65536) / 1024 ≤ 56319)]
  rw [parseLowSurrogate]
  rw [hexQuad_hex4 (by omega : 56320 + (n - 65536) % 1024 < 65536)]
  simp only []
  rw [if_pos (by omega : 56320 ≤ 56320 + (n - 65536) % 1024 ∧ 56320 + (n - 65536) % 1024 ≤ 57343)]
  have h3 : 65536 + (55296 + (n - 65536) / 1024 - 55296) * 1024 +
      (56320 + (n - 65536) % 1024 - 56320) = n := by
    omega
  rw [h3]

theorem parseStrBody_escBody (cs : List Char) (acc : List Char) (rest : List Char) :
    parseStrBody acc (cs.flatMap escChar ++ '"' :: rest) =
      some (String.mk (acc.reverse ++ cs), rest) := by
  induction cs generalizing acc with
  | nil =>
    simp only [List.flatMap_nil, List.nil_append, parseStrBody_quote, List.append_nil]
  | cons c cs ih =>
    by_cases hq : c = '"'
    · subst hq
      simp only [List.flatMap_cons, show escChar '"' = ['\\', '"'] from rfl,
        List.cons_append, List.nil_append,
        parseStrBody_backslash, parseEscape_quote, ih]
      simp
    · by_cases hbs : c = '\\'
      · subst hbs
        simp only [List.flatMap_cons, show escChar '\\' = ['\\', '\\'] from rfl,
          List.cons_append, List.nil_append,
          parseStrBody_backslash, parseEscape_backslash, ih]
        simp
      · by_cases h08 : c = '\x08'
        · subst h08
          simp only [List.flatMap_cons, show escChar '\x08' = ['\\', 'b'] from rfl,
            List.cons_append, List.nil_append,
            parseStrBody_backslash, parseEscape_b, ih]
          simp
        · by_cases h0c : c = '\x0c'
          · subst h0c
            simp only [List.flatMap_cons, show escChar '\x0c' = ['\\', 'f'] from rfl,
              List.cons_append, List.nil_append,
              parseStrBody_backslash, parseEscape_f, ih]
            simp
          · by_cases hnl : c = '\n'
            · subst hnl
              simp only [List.flatMap_cons, show escChar '\n' = ['\\', 'n'] from rfl,
                List.cons_append, List.nil_append,
                parseStrBody_backslash, parseEscape_n, ih]
              simp
            · by_cases h0d : c = '\x0d'
              · subst h0d
                simp only [List.flatMap_cons, show escChar '\x0d' = ['\\', 'r'] from rfl,
                  List.cons_append, List.nil_append,
                  parseStrBody_backslash, parseEscape_r, ih]
                simp
              · by_cases hta : c = '\t'
                · subst hta
                  simp only [List.flatMap_cons, show escChar '\t' = ['\\', 't'] from rfl,
                    List.cons_append, List.nil_append,
                    parseStrBody_backslash, parseEscape_t, ih]
                  simp
                · by_cases hpr : 32 ≤ c.toNat ∧ c.toNat ≤ 126
                  · have he : escChar c = [c] := by
                      simp only [escChar]
                      rw [if_neg hq, if_neg hbs, if_neg h08, if_neg h0c, if_neg hnl,
                        if_neg h0d, if_neg hta, if_pos hpr]
                    simp only [List.flatMap_cons, he, List.cons_append, List.nil_append,
                      parseStrBody_plain hq hbs (by omega : ¬c.toNat < 32), ih]
                    simp
                  · by_cases hsm : c.toNat < 65536
                    · have hval := char_scalar_range c
                      have he : escChar c = '\\' :: 'u' :: hex4 c.toNat := by
                        simp only [escChar]
                        rw [if_neg hq, if_neg hbs, if_neg h08, if_neg h0c, if_neg hnl,
                          if_neg h0d, if_neg hta, if_neg hpr, if_pos hsm]
                      simp only [List.flatMap_cons, he, List.cons_append, List.append_assoc,
                        List.nil_append, parseStrBody_backslash]
                      rw [parseEscape_hex hsm (by omega) (by omega), Char.ofNat_toNat, ih]
                      simp
                    · have hval := char_scalar_range c
                      have he : escChar c =
                          '\\' :: 'u' :: (hex4 (55296 + (c.toNat - 65536) / 1024) ++
                            ('\\' :: 'u' :: hex4 (56320 + (c.toNat - 65536) % 1024))) := by
                        simp only [escChar]
                        rw [if_neg hq, if_neg hbs, if_neg h08, if_neg h0c, if_neg hnl,
                          if_neg h0d, if_neg hta, if_neg hpr, if_neg hsm]
                        simp
                      simp only [List.flatMap_cons, he, List.cons_append, List.append_assoc,
                        List.nil_append, parseStrBody_backslash]
                      rw [parseEscape_surrogatePair (by omega) (by omega), Char.ofNat_toNat, ih]
                      simp

/-! ## Round trip for whole values -/

mutual

/-- Fuel needed by `parseVal` to parse the serialization of a value. -/
def costV : JValue → Nat
| .null => 1
| .bool _ => 1
| .int _ => 1
| .str _ => 1
| .arr a => 1 + costA a
| .obj o => 1 + costO o

/-- Fuel needed by `parseArrItems` for the items of a non-empty array. -/
def costA : JArr → Nat
| .nil => 0
| .cons v tl => 1 + costV v + costA tl

/-- Fuel needed by `parseObjItems` for the members of a non-empty object. -/
def costO : JObj → Nat
| .nil => 0
| .cons _ v tl => 1 + costV v + costO tl

end

theorem costV_pos (v : JValue) : 1 ≤ costV v := by
  cases v <;> simp [costV]

theorem numBoundary_comma (l : List Char) : numBoundary (',' :: l) :=
  ⟨rfl, by decide, by decide, by decide⟩

theorem numBoundary_rbracket (l : List Char) : numBoundary (']' :: l) :=
  ⟨rfl, by decide, by decide, by decide⟩

theorem numBoundary_rbrace (l : List Char) : numBoundary ('}' :: l) :=
  ⟨rfl, by decide, by decide, by decide⟩

theorem numBoundary_dumpArrTail (tl : JArr) (rest : List Char) :
    numBoundary (dumpArrTail tl ++ ']' :: rest) := by
  cases tl with
  | nil => simpa [dumpArrTail] using numBoundary_rbracket rest
  | cons v tl2 => simpa [dumpArrTail] using numBoundary_comma _

theorem numBoundary_dumpObjTail (tl : JObj) (rest : List Char) :
    numBoundary (dumpObjTail tl ++ '}' :: rest) := by
  cases tl with
  | nil => simpa [dumpObjTail] using numBoundary_rbrace rest
  | cons k v tl2 => simpa [dumpObjTail] using numBoundary_comma _

theorem skipWs_not_ws {c : Char}
    (h : ¬(c = ' ' ∨ c = '\t' ∨ c = '\n' ∨ c = '\x0d')) (l : List Char) :
    skipWs (c :: l) = c :: l := by
  rw [skipWs, if_neg h]

theorem parseVal_null (f : Nat) (rest : List Char) :
    parseVal (f + 1) ('n' :: 'u' :: 'l' :: 'l' :: rest) = some (.null, rest) := by
  simp [parseVal, skipWs]

theorem parseVal_true (f : Nat) (rest : List Char) :
    parseVal (f + 1) ('t' :: 'r' :: 'u' :: 'e' :: rest) = some (.bool true, rest) := by
  simp [parseVal, skipWs]

theorem parseVal_false (f : Nat) (rest : List Char) :
    parseVal (f + 1) ('f' :: 'a' :: 'l' :: 's' :: 'e' :: rest) = some (.bool false, rest) := by
  simp [parseVal, skipWs]

theorem parseVal_str (f : Nat) (s : String) (rest : List Char) :
    parseVal (f + 1) (serStr s ++ rest) = some (.str s, rest) := by
  have h1 : serStr s ++ rest = '"' :: (escBody s ++ '"' :: rest) := by
    simp [serStr]
  rw [h1]
  rw [parseVal]
  rw [skipWs_not_ws (by decide)]
  simp only [reduceIte]
  rw [show escBody s = s.data.flatMap escChar from rfl, parseStrBody_escBody]
  simp

theorem parseVal_int (f : Nat) (n : Int) {rest : List Char} (hrest : numBoundary rest) :
    parseVal (f + 1) (intChars n ++ rest) = some (.int n, rest) := by
  by_cases hneg : n < 0
  · have h1 : intChars n = '-' :: natChars n.natAbs := by simp [intChars, hneg]
    rw [h1, List.cons_append, parseVal, skipWs_not_ws (by decide)]
    simp only []
    rw [if_neg (by decide : ¬('-' = 'n')), if_neg (by decide : ¬('-' = 't')),
      if_neg (by decide : ¬('-' = 'f')), if_neg (by decide : ¬('-' = '"')),
      if_neg (by decide : ¬('-' = '[')), if_neg (by decide : ¬('-' = '{'))]
    rw [← List.cons_append, ← h1, parseNum_intChars n hrest]
  · obtain ⟨a, tl, ha, htl⟩ := natChars_head n.natAbs
    have hfacts := digChar_facts ha
    have h1 : intChars n = natChars n.natAbs := by simp [intChars, hneg]
    rw [h1, htl, List.cons_append, parseVal, skipWs_not_ws hfacts.2.2.2.2.2.2.2.2.2]
    simp only []
    rw [if_neg hfacts.1, if_neg hfacts.2.1, if_neg hfacts.2.2.1, if_neg hfacts.2.2.2.1,
      if_neg hfacts.2.2.2.2.1, if_neg hfacts.2.2.2.2.2.1]
    rw [← List.cons_append, ← htl, ← h1, parseNum_intChars n hrest]

theorem dumpVal_head (v : JValue) :
    ∃ c tl, dumpVal v = c :: tl ∧
      ¬(c = ' ' ∨ c = '\t' ∨ c = '\n' ∨ c = '\x0d') ∧ c ≠ ']' ∧ c ≠ '}' := by
  cases v with
  | null =>
    exact ⟨'n', ['u', 'l', 'l'], by simp [dumpVal], by decide, by decide, by decide⟩
  | bool b =>
    cases b with
    | true =>
      exact ⟨'t', ['r', 'u', 'e'], by simp [dumpVal], by decide, by decide, by decide⟩
    | false =>
      exact ⟨'f', ['a', 'l', 's', 'e'], by simp [dumpVal], by decide, by decide, by decide⟩
  | int n =>
    by_cases hneg : n < 0
    · exact ⟨'-', natChars n.natAbs, by simp [dumpVal, intChars, hneg],
        by decide, by decide, by decide⟩
    · obtain ⟨a, tl, ha, htl⟩ := natChars_head n.natAbs
      have hfacts := digChar_facts ha
      exact ⟨digChar a, tl, by simp [dumpVal, intChars, hneg, htl],
        hfacts.2.2.2.2.2.2.2.2.2, hfacts.2.2.2.2.2.2.2.1, hfacts.2.2.2.2.2.2.2.2.1⟩
  | str s =>
    exact ⟨'"', escBody s ++ ['"'], by simp [dumpVal, serStr], by decide, by decide, by decide⟩
  | arr a =>
    cases a with
    | nil => exact ⟨'[', [']'], by simp [dumpVal], by decide, by decide, by decide⟩
    | cons v tl =>
      exact ⟨'[', dumpVal v ++ dumpArrTail tl ++ [']'], by simp [dumpVal],
        by decide, by decide, by decide⟩
  | obj o =>
    cases o with
    | nil => exact ⟨'{', ['}'], by simp [dumpVal], by decide, by decide, by decide⟩
    | cons k v tl =>
      exact ⟨'{', serStr k ++ ':' :: dumpVal v ++ dumpObjTail tl ++ ['}'], by simp [dumpVal],
        by decide, by decide, by decide⟩

theorem string_mk_data (s : String) : String.mk s.data = s := rfl

mutual

/-- The parser inverts the serializer on any value, given enough fuel and
a follow-set that cannot extend a number. -/
theorem parseVal_dumpVal (v : JValue) (fuel : Nat) (hf : costV v ≤ fuel)
    (rest : List Char) (hrest : numBoundary rest) :
    parseVal fuel (dumpVal v ++ rest) = some (v, rest) := by
  have hpos := costV_pos v
  cases fuel with
  | zero => omega
  | succ f =>
    cases v with
    | null =>
      rw [show dumpVal .null ++ rest = 'n' :: 'u' :: 'l' :: 'l' :: rest from by simp [dumpVal]]
      exact parseVal_null f rest
    | bool b =>
      cases b with
      | true =>
        rw [show dumpVal (.bool true) ++ rest = 't' :: 'r' :: 'u' :: 'e' :: rest from by
          simp [dumpVal]]
        exact parseVal_true f rest
      | false =>
        rw [show dumpVal (.bool false) ++ rest = 'f' :: 'a' :: 'l' :: 's' :: 'e' :: rest from by
          simp [dumpVal]]
        exact parseVal_false f rest
    | int n =>
      rw [show dumpVal (.int n) = intChars n from by simp [dumpVal]]
      exact parseVal_int f n hrest
    | str s =>
      rw [show dumpVal (.str s) = serStr s from by simp [dumpVal]]
      exact parseVal_str f s rest
    | arr a =>
      cases a with
      | nil =>
        rw [show dumpVal (.arr .nil) ++ rest = '[' :: ']' :: rest from by simp [dumpVal]]
        rw [parseVal, skipWs_not_ws (by decide)]
        simp only []
        rw [if_neg (by decide : ¬('[' = 'n')), if_neg (by decide : ¬('[' = 't')),
          if_neg (by decide : ¬('[' = 'f')), if_neg (by decide : ¬('[' = '"')),
          if_pos (trivial : True)]
        rw [skipWs_not_ws (by decide)]
        simp only []
        rw [if_pos (trivial : True)]
      | cons v1 tl =>
        have hd : dumpVal (.arr (.cons v1 tl)) ++ rest =
            '[' :: (dumpVal v1 ++ (dumpArrTail tl ++ ']' :: rest)) := by
          simp [dumpVal]
        rw [hd, parseVal, skipWs_not_ws (by decide)]
        simp only []
        rw [if_neg (by decide : ¬('[' = 'n')), if_neg (by decide : ¬('[' = 't')),
          if_neg (by decide : ¬('[' = 'f')), if_neg (by decide : ¬('[' = '"')),
          if_pos (trivial : True)]
        obtain ⟨c, ctl, hv, hws, hbr, hbr2⟩ := dumpVal_head v1
        rw [hv, List.cons_append, skipWs_not_ws hws]
        simp only []
        rw [if_neg hbr]
        rw [← List.cons_append, ← hv]
        have hcost : costA (.cons v1 tl) ≤ f := by
          simp only [costV, costA] at hf ⊢
          omega
        rw [parseArrItems_dump v1 tl f hcost rest]
    | obj o =>
      cases o with
      | nil =>
        rw [show dumpVal (.obj .nil) ++ rest = '{' :: '}' :: rest from by simp [dumpVal]]
        rw [parseVal, skipWs_not_ws (by decide)]
        simp only []
        rw [if_neg (by decide : ¬('{' = 'n')), if_neg (by decide : ¬('{' = 't')),
          if_neg (by decide : ¬('{' = 'f')), if_neg (by decide : ¬('{' = '"')),
          if_neg (by decide : ¬('{' = '[')), if_pos (trivial : True)]
        rw [skipWs_not_ws (by decide)]
        simp only []
        rw [if_pos (trivial : True)]
      | cons k v1 tl =>
        have hd : dumpVal (.obj (.cons k v1 tl)) ++ rest =
            '{' :: (serStr k ++ (':' :: (dumpVal v1 ++ (dumpObjTail tl ++ '}' :: rest)))) := by
          simp [dumpVal]
        rw [hd, parseVal, skipWs_not_ws (by decide)]
        simp only []
        rw [if_neg (by decide : ¬('{' = 'n')), if_neg (by decide : ¬('{' = 't')),
          if_neg (by decide : ¬('{' = 'f')), if_neg (by decide : ¬('{' = '"')),
          if_neg (by decide : ¬('{' = '[')), if_pos (trivial : True)]
        have hser : serStr k ++ (':' :: (dumpVal v1 ++ (dumpObjTail tl ++ '}' :: rest))) =
            '"' :: (escBody k ++ ('"' :: (':' :: (dumpVal v1 ++ (dumpObjTail tl ++ '}' :: rest))))) := by
          simp [serStr]
        rw [hser, skipWs_not_ws (by decide)]
        simp only []
        rw [if_neg (by decide : ¬('"' = '}'))]
        rw [← hser]
        have hcost : costO (.cons k v1 tl) ≤ f := by
          simp only [costV, costO] at hf ⊢
          omega
        rw [parseObjItems_dump k v1 tl f hcost rest]
termination_by sizeOf v

/-- The items parser consumes the serialized items of a non-empty array
together with the closing bracket. -/
theorem parseArrItems_dump (v : JValue) (tl : JArr) (fuel : Nat)
    (hf : costA (.cons v tl) ≤ fuel) (rest : List Char) :
    parseArrItems fuel (dumpVal v ++ (dumpArrTail tl ++ ']' :: rest)) =
      some (.cons v tl, rest) := by
  cases fuel with
  | zero =>
    simp only [costA] at hf
    omega
  | succ f =>
    rw [parseArrItems]
    have hcv : costV v ≤ f := by
      simp only [costA] at hf
      omega
    rw [parseVal_dumpVal v f hcv _ (numBoundary_dumpArrTail tl rest)]
    simp only []
    cases tl with
    | nil =>
      rw [show dumpArrTail .nil ++ ']' :: rest = ']' :: rest from by simp [dumpArrTail]]
      rw [skipWs_not_ws (by decide)]
      simp only []
    | cons v2 tl2 =>
      rw [show dumpArrTail (.cons v2 tl2) ++ ']' :: rest =
          ',' :: (dumpVal v2 ++ (dumpArrTail tl2 ++ ']' :: rest)) from by simp [dumpArrTail]]
      rw [skipWs_not_ws (by decide)]
      simp only []
      have hcost : costA (.cons v2 tl2) ≤ f := by
        simp only [costA] at hf ⊢
        omega
      rw [parseArrItems_dump v2 tl2 f hcost rest]
termination_by 1 + sizeOf v + sizeOf tl

/-- The members parser consumes the serialized members of a non-empty
object together with the closing brace. -/
theorem parseObjItems_dump (k : String) (v : JValue) (tl : JObj) (fuel : Nat)
    (hf : costO (.cons k v tl) ≤ fuel) (rest : List Char) :
    parseObjItems fuel (serStr k ++ (':' :: (dumpVal v ++ (dumpObjTail tl ++ '}' :: rest)))) =
      some (.cons k v tl, rest) := by
  cases fuel with
  | zero =>
    simp only [costO] at hf
    omega
  | succ f =>
    rw [parseObjItems]
    have hser : serStr k ++ (':' :: (dumpVal v ++ (dumpObjTail tl ++ '}' :: rest))) =
        '"' :: (escBody k ++ ('"' :: (':' :: (dumpVal v ++ (dumpObjTail tl ++ '}' :: rest))))) := by
      simp [serStr]
    rw [hser, skipWs_not_ws (by decide)]
    simp only []
    rw [show escBody k = k.data.flatMap escChar from rfl]
    rw [show (('"' : Char) :: (':' :: (dumpVal v ++ (dumpObjTail tl ++ '}' :: rest)))) =
      '"' :: (':' :: (dumpVal v ++ (dumpObjTail tl ++ '}' :: rest))) from rfl]
    rw [parseStrBody_escBody k.data []]
    simp only [List.reverse_nil, List.nil_append, string_mk_data]
    rw [skipWs_not_ws (by decide)]
    simp only []
    have hcv : costV v ≤ f := by
      simp only [costO] at hf
      omega
    rw [parseVal_dumpVal v f hcv _ (numBoundary_dumpObjTail tl rest)]
    simp only []
    cases tl with
    | nil =>
      rw [show dumpObjTail .nil ++ '}' :: rest = '}' :: rest from by simp [dumpObjTail]]
      rw [skipWs_not_ws (by decide)]
      simp only []
    | cons k2 v2 tl2 =>
      rw [show dumpObjTail (.cons k2 v2 tl2) ++ '}' :: rest =
          ',' :: (serStr k2 ++ (':' :: (dumpVal v2 ++ (dumpObjTail tl2 ++ '}' :: rest)))) from by
        simp [dumpObjTail]]
      rw [skipWs_not_ws (by decide)]
      simp only []
      have hcost : costO (.cons k2 v2 tl2) ≤ f := by
        simp only [costO] at hf ⊢
        omega
      rw [parseObjItems_dump k2 v2 tl2 f hcost rest]
termination_by 1 + sizeOf v + sizeOf tl

end

mutual

/-- The fuel bound is satisfied by input length. -/
theorem costV_le (v : JValue) : costV v ≤ (dumpVal v).length := by
  cases v with
  | null => simp [costV, dumpVal]
  | bool b => cases b <;> simp [costV, dumpVal]
  | int n =>
    have := natChars_head n.natAbs
    obtain ⟨a, tl, -, htl⟩ := this
    by_cases hneg : n < 0 <;> simp [costV, dumpVal, intChars, hneg, htl]
  | str s => simp [costV, dumpVal, serStr]
  | arr a =>
    cases a with
    | nil => simp [costV, costA, dumpVal]
    | cons v1 tl =>
      have h1 := costV_le v1
      have h2 := costA_le tl
      simp only [costV, costA, dumpVal, List.length_cons, List.length_append]
      omega
  | obj o =>
    cases o with
    | nil => simp [costV, costO, dumpVal]
    | cons k v1 tl =>
      have h1 := costV_le v1
      have h2 := costO_le tl
      simp only [costV, costO, dumpVal, List.length_cons, List.length_append]
      omega

/-- Array-tail fuel bound. -/
theorem costA_le (a : JArr) : costA a ≤ (dumpArrTail a).length := by
  cases a with
  | nil => simp [costA, dumpArrTail]
  | cons v tl =>
    have h1 := costV_le v
    have h2 := costA_le tl
    simp only [costA, dumpArrTail, List.length_cons, List.length_append]
    omega

/-- Object-tail fuel bound. -/
theorem costO_le (o : JObj) : costO o ≤ (dumpObjTail o).length := by
  cases o with
  | nil => simp [costO, dumpObjTail]
  | cons k v tl =>
    have h1 := costV_le v
    have h2 := costO_le tl
    simp only [costO, dumpObjTail, List.length_cons, List.length_append]
    omega

end

/-- `json.loads` inverts `json.dumps(·, separators=(',', ':'))` on every
JSON value of the model. -/
theorem jsonParse_dumpVal (v : JValue) : jsonParse (dumpVal v) = some v := by
  unfold jsonParse
  have hcost : costV v ≤ (dumpVal v).length + 1 :=
    le_trans (costV_le v) (Nat.le_succ _)
  have h := parseVal_dumpVal v ((dumpVal v).length + 1) hcost [] trivial
  rw [List.append_nil] at h
  rw [h]
  simp [skipWs]

/-! ## UTF-8 (`str.encode('utf-8')` / byte decoding inside `json.loads`)

The serializer output is pure ASCII (`ensure_ascii=True`), so only the
one-byte branch is exercised by the round trip; the encoder and decoder
nevertheless implement the full 1-4 byte forms. -/

/-- UTF-8 encoding of one scalar value. -/
def utf8EncodeChar (c : Char) : List Nat :=
  let n := c.toNat
  if n < 128 then [n]
  else if n < 2048 then [192 + n / 64, 128 + n % 64]
  else if n < 65536 then [224 + n / 4096, 128 + n / 64 % 64, 128 + n % 64]
  else [240 + n / 262144, 128 + n / 4096 % 64, 128 + n / 64 % 64, 128 + n % 64]

/-- UTF-8 encoding of a string's characters. -/
def utf8Encode (s : List Char) : List Nat :=
  s.flatMap utf8EncodeChar

/-- Whether a byte is a UTF-8 continuation byte. -/
def isCont (b : Nat) : Prop := 128 ≤ b ∧ b < 192

instance (b : Nat) : Decidable (isCont b) := by
  unfold isCont
  infer_instance

/-- Decode one UTF-8 scalar from a first byte and the remaining bytes:
strict (as `bytes.decode('utf-8')`), rejecting stray continuation bytes,
truncated sequences, overlong forms, surrogates and out-of-range values. -/
def utf8DecodeOne (b : Nat) (rest : List Nat) : Option (Char × List Nat) :=
  if b < 128 then some (Char.ofNat b, rest)
  else if b < 192 then none
  else if b < 224 then
    match rest with
    | b2 :: rest2 =>
      if isCont b2 then
        let n := (b - 192) * 64 + (b2 - 128)
        if n < 128 then none else some (Char.ofNat n, rest2)
      else none
    | [] => none
  else if b < 240 then
    match rest with
    | b2 :: b3 :: rest2 =>
      if isCont b2 ∧ isCont b3 then
        let n := (b - 224) * 4096 + (b2 - 128) * 64 + (b3 - 128)
        if n < 2048 ∨ (55296 ≤ n ∧ n ≤ 57343) then none
        else some (Char.ofNat n, rest2)
      else none
    | _ => none
  else if b < 248 then
    match rest with
    | b2 :: b3 :: b4 :: rest2 =>
      if isCont b2 ∧ isCont b3 ∧ isCont b4 then
        let n := (b - 240) * 262144 + (b2 - 128) * 4096 + (b3 - 128) * 64 + (b4 - 128)
        if n < 65536 ∨ 1114112 ≤ n then none
        else some (Char.ofNat n, rest2)
      else none
    | _ => none
  else none

/-- Decode a UTF-8 byte sequence, scalar by scalar. -/
def utf8DecodeLoop : Nat → List Nat → Option (List Char)
| _, [] => some []
| 0, _ => none
| fuel + 1, b :: rest =>
  match utf8DecodeOne b rest with
  | some (c, rest2) =>
    (match utf8DecodeLoop fuel rest2 with
     | some cs => some (c :: cs)
     | none => none)
  | none => none

/-- Strict UTF-8 decoding of a whole byte sequence. -/
def utf8Decode (bytes : List Nat) : Option (List Char) :=
  utf8DecodeLoop (bytes.length + 1) bytes

theorem utf8DecodeOne_ascii {c : Char} (hc : c.toNat < 128) (rest : List Nat) :
    utf8DecodeOne c.toNat rest = some (c, rest) := by
  unfold utf8DecodeOne
  rw [if_pos hc, Char.ofNat_toNat]

theorem utf8DecodeLoop_ascii {s : List Char} (h : ∀ c ∈ s, c.toNat < 128) :
    ∀ fuel, s.length ≤ fuel → utf8DecodeLoop fuel (s.map Char.toNat) = some s := by
  induction s with
  | nil =>
    intro fuel _
    cases fuel <;> rfl
  | cons c cs ih =>
    intro fuel hfuel
    have hc : c.toNat < 128 := h c (by simp)
    have htl := ih (fun x hx => h x (by simp [hx]))
    cases fuel with
    | zero => simp at hfuel
    | succ f =>
      simp only [List.map_cons, utf8DecodeLoop]
      rw [utf8DecodeOne_ascii hc]
      simp only []
      rw [htl f (by simp at hfuel; omega)]

theorem utf8Decode_ascii {s : List Char} (h : ∀ c ∈ s, c.toNat < 128) :
    utf8Decode (s.map Char.toNat) = some s := by
  unfold utf8Decode
  exact utf8DecodeLoop_ascii h _ (by simp)

theorem utf8Encode_ascii {s : List Char} (h : ∀ c ∈ s, c.toNat < 128) :
    utf8Encode s = s.map Char.toNat := by
  induction s with
  | nil => rfl
  | cons c cs ih =>
    have hc : c.toNat < 128 := h c (by simp)
    have htl := ih (fun x hx => h x (by simp [hx]))
    simp only [utf8Encode, List.flatMap_cons, List.map_cons] at htl ⊢
    rw [show utf8EncodeChar c = [c.toNat] from by simp [utf8EncodeChar, hc]]
    simp [htl]

theorem digChar_ascii {d : Nat} (h : d < 10) : (digChar d).toNat < 128 := by
  interval_cases d <;> decide

theorem hexChar_ascii {d : Nat} (h : d < 16) : (hexChar d).toNat < 128 := by
  interval_cases d <;> decide

theorem natChars_ascii (n : Nat) : ∀ c ∈ natChars n, c.toNat < 128 := by
  intro c hc
  by_cases h0 : n = 0
  · subst h0
    simp [natChars] at hc
    subst hc
    decide
  · simp only [natChars, if_neg h0, List.mem_reverse, List.mem_map] at hc
    obtain ⟨d, hd, rfl⟩ := hc
    exact digChar_ascii (Nat.digits_lt_base (by norm_num) hd)

theorem intChars_ascii (n : Int) : ∀ c ∈ intChars n, c.toNat < 128 := by
  intro c hc
  by_cases hneg : n < 0
  · simp only [intChars, if_pos hneg, List.mem_cons] at hc
    rcases hc with rfl | hc2
    · decide
    · exact natChars_ascii _ c hc2
  · simp only [intChars, if_neg hneg] at hc
    exact natChars_ascii _ c hc

theorem hex4_ascii (n : Nat) : ∀ x ∈ hex4 n, x.toNat < 128 := by
  intro x hx
  simp only [hex4, List.mem_cons, List.not_mem_nil, or_false, List.mem_singleton] at hx
  rcases hx with rfl | rfl | rfl | rfl
  · exact hexChar_ascii (Nat.mod_lt _ (by norm_num))
  · exact hexChar_ascii (Nat.mod_lt _ (by norm_num))
  · exact hexChar_ascii (Nat.mod_lt _ (by norm_num))
  · exact hexChar_ascii (Nat.mod_lt _ (by norm_num))

theorem escChar_ascii (c : Char) : ∀ x ∈ escChar c, x.toNat < 128 := by
  unfold escChar
  split_ifs with h1 h2 h3 h4 h5 h6 h7 h8 h9
  · decide
  · decide
  · decide
  · decide
  · decide
  · decide
  · decide
  · simp only [List.forall_mem_singleton]
    omega
  · simp only [List.forall_mem_cons]
    exact ⟨by decide, by decide, hex4_ascii _⟩
  · simp only [List.forall_mem_append, List.forall_mem_cons, and_assoc]
    exact ⟨by decide, by decide, hex4_ascii _, by decide, by decide, hex4_ascii _⟩

theorem serStr_ascii (s : String) : ∀ c ∈ serStr s, c.toNat < 128 := by
  intro c hc
  unfold serStr escBody at hc
  rcases List.mem_cons.mp hc with rfl | hc2
  · decide
  · simp only [List.append_eq, List.mem_append, List.mem_flatMap,
      List.mem_singleton] at hc2
    rcases hc2 with ⟨x, -, hcx⟩ | rfl
    · exact escChar_ascii x c hcx
    · decide

mutual

/-- With `ensure_ascii` (the `json.dumps` default) the serializer output
is pure ASCII. -/
theorem dumpVal_ascii (v : JValue) : ∀ c ∈ dumpVal v, c.toNat < 128 := by
  cases v with
  | null =>
    simp only [dumpVal]
    decide
  | bool b => cases b <;> (simp only [dumpVal]; decide)
  | int n =>
    simp only [dumpVal]
    exact intChars_ascii n
  | str s =>
    simp only [dumpVal]
    exact serStr_ascii s
  | arr a =>
    cases a with
    | nil =>
      simp only [dumpVal]
      decide
    | cons v1 tl =>
      simp only [dumpVal, List.forall_mem_cons, List.forall_mem_append,
        List.forall_mem_singleton, and_assoc]
      exact ⟨by decide, dumpVal_ascii v1, dumpArrTail_ascii tl, by decide⟩
  | obj o =>
    cases o with
    | nil =>
      simp only [dumpVal]
      decide
    | cons k v1 tl =>
      simp only [dumpVal, List.forall_mem_cons, List.forall_mem_append,
        List.forall_mem_singleton, and_assoc]
      exact ⟨by decide, serStr_ascii k, by decide, dumpVal_ascii v1,
        dumpObjTail_ascii tl, by decide⟩

/-- ASCII bound for serialized array tails. -/
theorem dumpArrTail_ascii (a : JArr) : ∀ c ∈ dumpArrTail a, c.toNat < 128 := by
  cases a with
  | nil =>
    intro c hc
    simp [dumpArrTail] at hc
  | cons v tl =>
    simp only [dumpArrTail, List.forall_mem_cons, List.forall_mem_append, and_assoc]
    exact ⟨by decide, dumpVal_ascii v, dumpArrTail_ascii tl⟩

/-- ASCII bound for serialized object tails. -/
theorem dumpObjTail_ascii (o : JObj) : ∀ c ∈ dumpObjTail o, c.toNat < 128 := by
  cases o with
  | nil =>
    intro c hc
    simp [dumpObjTail] at hc
  | cons k v tl =>
    simp only [dumpObjTail, List.forall_mem_cons, List.forall_mem_append, and_assoc]
    exact ⟨by decide, serStr_ascii k, by decide, dumpVal_ascii v, dumpObjTail_ascii tl⟩

end

/-! ## zlib (RFC 1950/1951)

`compress_event` calls `zlib.compress(..., 6)` and the metrics worker
calls `zlib.decompress`.  zlib is an external library; its stream format
is modelled here by the stored-block (uncompressed) subset of DEFLATE
inside a zlib container — a valid zlib stream with the standard 2-byte
header, `BTYPE=00` blocks (`BFINAL` flag byte, `LEN`/`NLEN` little-endian,
raw bytes) and the big-endian Adler-32 trailer.  The Huffman coder used
at level 6 changes only the block encoding, not the round-trip contract
(§4.2 of the spec: decompression must reproduce the exact original). -/

/-- Adler-32 checksum of a byte sequence. -/
def adler32 (data : List Nat) : Nat :=
  let s := data.foldl
    (fun (p : Nat × Nat) b =>
      ((p.1 + b) % 65521, (p.2 + (p.1 + b) % 65521) % 65521))
    (1, 0)
  s.2 * 65536 + s.1

/-- Big-endian 4-byte rendering of a 32-bit checksum. -/
def adlerBytes (n : Nat) : List Nat :=
  [n / 16777216 % 256, n / 65536 % 256, n / 256 % 256, n % 256]

/-- Split a byte sequence into stored-block payloads of at most 65535
bytes (at least one block, so empty input yields one empty block). -/
def chunkBytes (b : List Nat) : List (List Nat) :=
  if b.length ≤ 65535 then [b]
  else b.take 65535 :: chunkBytes (b.drop 65535)
termination_by b.length
decreasing_by
  simp only [List.length_drop]
  omega

/-- One stored DEFLATE block: `BFINAL`/`BTYPE=00` flag byte, `LEN`,
`NLEN` (ones complement) little-endian, then the raw bytes. -/
def storedBlock (final : Bool) (chunk : List Nat) : List Nat :=
  (if final then 1 else 0) :: chunk.length % 256 :: chunk.length / 256 ::
    (65535 - chunk.length) % 256 :: (65535 - chunk.length) / 256 :: chunk

/-- The DEFLATE body: all chunks as stored blocks, the last one final. -/
def deflateStored : List (List Nat) → List Nat
| [] => []
| [c] => storedBlock true c
| c :: cs => storedBlock false c ++ deflateStored cs

/-- `zlib.compress` modelled with stored blocks: `0x78 0x9c` header (CM=8,
32K window, default FLEVEL, valid FCHECK), body, Adler-32 trailer. -/
def zlibCompress (data : List Nat) : List Nat :=
  120 :: 156 :: (deflateStored (chunkBytes data) ++ adlerBytes (adler32 data))

/-- Inflate a sequence of stored blocks, returning the data and what
follows the final block.  Non-stored block types (`BTYPE≠00`) are outside
the model.  The fuel bounds the number of blocks. -/
def inflateStored : Nat → List Nat → Option (List Nat × List Nat)
| 0, _ => none
| fuel + 1, f :: l1 :: l2 :: n1 :: n2 :: rest =>
  if f / 2 % 4 = 0 then
    let len := l1 + l2 * 256
    let nlen := n1 + n2 * 256
    if len + nlen = 65535 then
      let chunk := rest.take len
      if chunk.length = len then
        if f % 2 = 1 then some (chunk, rest.drop len)
        else
          match inflateStored fuel (rest.drop len) with
          | some (d, r) => some (chunk ++ d, r)
          | none => none
      else none
    else none
  else none
| _, _ => none

/-- `zlib.decompress` modelled on the stored-block subset: check the
header, inflate, verify the Adler-32 trailer. -/
def zlibDecompress (bytes : List Nat) : Option (List Nat) :=
  match bytes with
  | cmf :: flg :: rest =>
    if cmf % 16 = 8 ∧ (cmf * 256 + flg) % 31 = 0 then
      match inflateStored (rest.length + 1) rest with
      | some (data, trailer) =>
        if trailer = adlerBytes (adler32 data) then some data else none
      | none => none
    else none
  | _ => none

theorem chunkBytes_ne_nil (b : List Nat) : chunkBytes b ≠ [] := by
  rw [chunkBytes]
  split <;> simp

theorem chunkBytes_le (b : List Nat) : ∀ c ∈ chunkBytes b, c.length ≤ 65535 := by
  rw [chunkBytes]
  split
  · rename_i h
    intro c hc
    rw [List.mem_singleton] at hc
    subst hc
    exact h
  · rename_i h
    intro c hc
    rcases List.mem_cons.mp hc with rfl | hc2
    · simp
    · exact chunkBytes_le (b.drop 65535) c hc2
termination_by b.length
decreasing_by
  simp only [List.length_drop]
  omega

theorem chunkBytes_join (b : List Nat) : (chunkBytes b).flatten = b := by
  rw [chunkBytes]
  split
  · simp
  · rw [List.flatten_cons]
    rw [chunkBytes_join (b.drop 65535)]
    exact List.take_append_drop 65535 b
termination_by b.length
decreasing_by
  simp only [List.length_drop]
  omega

theorem deflateStored_length :
    ∀ cs : List (List Nat), cs.length ≤ (deflateStored cs).length
| [] => by simp [deflateStored]
| [c] => by
  simp [deflateStored, storedBlock]
| c :: c2 :: cs => by
  have ih := deflateStored_length (c2 :: cs)
  simp only [deflateStored, storedBlock, List.length_append, List.length_cons] at ih ⊢
  omega

theorem inflateStored_deflateStored :
    ∀ (chunks : List (List Nat)), chunks ≠ [] →
      (∀ c ∈ chunks, c.length ≤ 65535) →
      ∀ (fuel : Nat), chunks.length ≤ fuel → ∀ (trailer : List Nat),
      inflateStored fuel (deflateStored chunks ++ trailer) =
        some (chunks.flatten, trailer)
| [], hne, _, _, _, _ => absurd rfl hne
| [c], _, hle, fuel, hf, trailer => by
  have hc : c.length ≤ 65535 := hle c (by simp)
  cases fuel with
  | zero => simp at hf
  | succ f =>
    rw [show deflateStored [c] ++ trailer =
        1 :: c.length % 256 :: c.length / 256 :: (65535 - c.length) % 256 ::
          (65535 - c.length) / 256 :: (c ++ trailer) from by
      simp [deflateStored, storedBlock]]
    rw [inflateStored]
    rw [if_pos (by norm_num)]
    simp only []
    rw [show c.length % 256 + c.length / 256 * 256 = c.length from by omega]
    rw [show (65535 - c.length) % 256 + (65535 - c.length) / 256 * 256 =
        65535 - c.length from by omega]
    rw [if_pos (by omega : c.length + (65535 - c.length) = 65535)]
    rw [List.take_left, List.drop_left]
    rw [if_pos rfl, if_pos (trivial : True)]
    simp
| c :: c2 :: cs, _, hle, fuel, hf, trailer => by
  have hc : c.length ≤ 65535 := hle c (by simp)
  cases fuel with
  | zero => simp at hf
  | succ f =>
    rw [show deflateStored (c :: c2 :: cs) ++ trailer =
        0 :: c.length % 256 :: c.length / 256 :: (65535 - c.length) % 256 ::
          (65535 - c.length) / 256 :: (c ++ (deflateStored (c2 :: cs) ++ trailer)) from by
      simp [deflateStored, storedBlock]]
    rw [inflateStored]
    rw [if_pos (by norm_num)]
    simp only []
    rw [show c.length % 256 + c.length / 256 * 256 = c.length from by omega]
    rw [show (65535 - c.length) % 256 + (65535 - c.length) / 256 * 256 =
        65535 - c.length from by omega]
    rw [if_pos (by omega : c.length + (65535 - c.length) = 65535)]
    rw [List.take_left, List.drop_left]
    rw [if_pos rfl, if_neg (by norm_num : ¬((0 : Nat) % 2 = 1))]
    rw [inflateStored_deflateStored (c2 :: cs) (by simp)
      (fun x hx => hle x (by simp [hx])) f (by simp at hf ⊢; omega) trailer]
    simp

/-- The modelled `zlib.decompress` inverts the modelled `zlib.compress`. -/
theorem zlibDecompress_zlibCompress (data : List Nat) :
    zlibDecompress (zlibCompress data) = some data := by
  unfold zlibCompress zlibDecompress
  simp only []
  rw [if_pos (⟨trivial, trivial⟩ : True ∧ True)]
  have hne := chunkBytes_ne_nil data
  have hle := chunkBytes_le data
  have hfl : (chunkBytes data).length ≤
      (deflateStored (chunkBytes data) ++ adlerBytes (adler32 data)).length + 1 := by
    have := deflateStored_length (chunkBytes data)
    simp only [List.length_append]
    omega
  rw [inflateStored_deflateStored (chunkBytes data) hne hle _ hfl
    (adlerBytes (adler32 data))]
  simp only []
  rw [chunkBytes_join]
  rw [if_pos rfl]

/-! ## The writer's compression and its inverse (for claim C8) -/

/-- Compression level used by the writer (`COMPRESSION_LEVEL = 6` in
`src/src/blueplane/processing/database/writer.py`).  The level selects
the compression effort of the external library and does not change the
stream contract; the stored-block model above is independent of it. -/
def COMPRESSION_LEVEL : Nat := 6

/-- `SQLiteBatchWriter.compress_event` (writer.py lines 44-55):
`json.dumps(event, separators=(',', ':'))`, UTF-8 encoded, then
`zlib.compress`. -/
def compress_event (event : JObj) : List Nat :=
  zlibCompress (utf8Encode (dumpVal (.obj event)))

/-- The decompression side as in
`MetricsWorker._fetch_event_from_sqlite` (metrics_worker.py lines
167-169): `zlib.decompress(...)` then `json.loads(...)` (UTF-8 decode and
parse). -/
def decompress_event (data : List Nat) : Option JValue :=
  match zlibDecompress data with
  | some bs =>
    (match utf8Decode bs with
     | some cs => jsonParse cs
     | none => none)
  | none => none

/-- Round trip of the writer's compression with the worker's
decompression. -/
theorem decompress_compress_event (event : JObj) :
    decompress_event (compress_event event) = some (.obj event) := by
  unfold compress_event decompress_event
  rw [zlibDecompress_zlibCompress]
  simp only []
  rw [utf8Encode_ascii (dumpVal_ascii (.obj event))]
  rw [utf8Decode_ascii (dumpVal_ascii (.obj event))]
  simp only []
  rw [jsonParse_dumpVal]

/-! ## SharedMetricsState (`src/src/processing/metrics/shared_state.py`)

The acceptance and latency windows are Redis sorted sets written with
`ZADD key {str(value): timestamp}` — the VALUE is the member and the
timestamp is the score.  Redis sorted-set members are unique: adding an
existing member only updates its score.  The model keeps that semantics
(`zadd` replaces the score of an existing member). -/

/-- A Redis sorted set: list of (member, score), members unique. -/
def ZSet := List (String × Rat)

instance : DecidableEq ZSet := by
  unfold ZSet
  infer_instance

/-- The empty sorted set. -/
def ZSet.empty : ZSet := []

/-- `ZADD key {member: score}`: update the score if the member exists,
otherwise insert. -/
def ZSet.zadd (member : String) (score : Rat) : ZSet → ZSet
| [] => [(member, score)]
| (m, s) :: tl =>
  if m = member then (m, score) :: tl else (m, s) :: ZSet.zadd member score tl

/-- `ZCARD`: number of members. -/
def ZSet.zcard (z : ZSet) : Nat := z.length

/-- Redis sorted-set order: by score, ties broken by member string. -/
def zOrder (a b : String × Rat) : Prop :=
  a.2 < b.2 ∨ (a.2 = b.2 ∧ ¬b.1 < a.1)

instance : DecidableRel zOrder := by
  unfold zOrder
  exact fun a b => inferInstanceAs (Decidable (_ ∨ _))

/-- Members in score order, as `ZRANGE key 0 -1`. -/
def ZSet.zrange (z : ZSet) : List String :=
  (List.insertionSort zOrder z).map Prod.fst

/-- `ZPOPMIN key k`: remove the `k` lowest-scoring members. -/
def ZSet.zpopmin (k : Nat) (z : ZSet) : ZSet :=
  (List.insertionSort zOrder z).drop k

/-- The shared, Redis-backed metrics state: one field per Redis key used
by `SharedMetricsState`. -/
structure RedisState where
  latency_window : ZSet
  acceptance_window : ZSet
  tool_counts : List (String × Nat)
  tool_success : List (String × Nat)
  tool_failures : List (String × Nat)
  session_starts : List (String × String)
  session_tools : List (String × Nat)
  session_prompts : List (String × Nat)
  events_per_second : ZSet
deriving DecidableEq

/-- A fresh Redis instance: every key empty. -/
def RedisState.empty : RedisState :=
  ⟨[], [], [], [], [], [], [], [], []⟩

/-- Window limit fields of `SharedMetricsState.__init__`. -/
def acceptance_window_size : Nat := 100

/-- Window limit for the latency sliding window. -/
def latency_window_size : Nat := 100

/-- `SharedMetricsState.add_acceptance` (lines 124-148): `ZADD` of member
`str(1 if accepted else 0)` at score `time.time()`, then trim to the most
recent `acceptance_window_size` entries via `ZPOPMIN`. -/
def add_acceptance (accepted : Bool) (now : Rat) (st : RedisState) : RedisState :=
  let member := if accepted then "1" else "0"
  let z := st.acceptance_window.zadd member now
  let count := z.zcard
  let z2 := if count > acceptance_window_size
    then ZSet.zpopmin (count - acceptance_window_size) z
    else z
  { st with acceptance_window := z2 }

/-- The numeric value the reader recovers from a member string
(`int(float(v))`; the writer only ever stores `"0"` and `"1"`). -/
def memberVal (s : String) : Int :=
  match parseNum s.data with
  | some (n, rest) => if rest = [] then n else 0
  | none => 0

/-- `SharedMetricsState.get_acceptance_rate` (lines 150-173): read all
members, convert to ints, return mean × 100 (0.0 on an empty window). -/
def get_acceptance_rate (st : RedisState) : Rat :=
  let values := st.acceptance_window.zrange
  if values = [] then 0
  else
    let decisions := values.map memberVal
    let rate := ((decisions.sum : Int) : Rat) / (decisions.length : Rat)
    rate * 100

/-- Result record of `get_latency_percentiles`. -/
structure LatencyPercentiles where
  p50 : Rat
  p95 : Rat
  p99 : Rat
  avg : Rat
deriving DecidableEq

/-- `int(count * 0.xx)` of the source: the floats `0.50`, `0.95`, `0.99`
scale a window count; for the bounded windows involved the truncation
equals the exact floor `count * num / den`, computed here in `Nat`. -/
def pctIdx (count num den : Nat) : Nat :=
  count * num / den

/-- `SharedMetricsState.get_latency_percentiles` (lines 87-122) on the
window's values: sort, index at `int(count * p)` clamped to `count - 1`,
plus the average. -/
def get_latency_percentiles (values : List Rat) : LatencyPercentiles :=
  if values = [] then ⟨0, 0, 0, 0⟩
  else
    let latencies := List.insertionSort (· ≤ ·) values
    let count := latencies.length
    ⟨latencies.getD (min (pctIdx count 50 100) (count - 1)) 0,
     latencies.getD (min (pctIdx count 95 100) (count - 1)) 0,
     latencies.getD (min (pctIdx count 99 100) (count - 1)) 0,
     latencies.sum / (count : Rat)⟩

/-- Sorted-window indexing is monotone in the index. -/
theorem sorted_getD_mono {l : List Rat} (hs : l.Sorted (· ≤ ·)) {i j : Nat}
    (hij : i ≤ j) (hj : j < l.length) : l.getD i 0 ≤ l.getD j 0 := by
  have hi : i < l.length := lt_of_le_of_lt hij hj
  rw [List.getD_eq_get _ _ hi, List.getD_eq_get _ _ hj]
  exact hs.rel_get_of_le hij

/-- Percentile monotonicity: on any non-empty window the returned
`p50 ≤ p95 ≤ p99`. -/
theorem latency_percentiles_mono (values : List Rat) (h : values ≠ []) :
    (get_latency_percentiles values).p50 ≤ (get_latency_percentiles values).p95 ∧
      (get_latency_percentiles values).p95 ≤ (get_latency_percentiles values).p99 := by
  unfold get_latency_percentiles
  rw [if_neg h]
  set l := List.insertionSort (· ≤ ·) values with hl
  have hs : l.Sorted (· ≤ ·) := List.sorted_insertionSort _ values
  have hlen : l.length = values.length := List.length_insertionSort _ values
  have hpos : 0 < l.length := by
    rw [hlen]
    exact List.length_pos.mpr h
  have hidx : ∀ p q : Nat, p ≤ q →
      pctIdx l.length p 100 ≤ pctIdx l.length q 100 := by
    intro p q hpq
    unfold pctIdx
    exact Nat.div_le_div_right (Nat.mul_le_mul_left _ hpq)
  have hbound : ∀ p : Nat, min (pctIdx l.length p 100) (l.length - 1) < l.length := by
    intro p
    have : l.length - 1 < l.length := by omega
    omega
  constructor
  · exact sorted_getD_mono hs
      (min_le_min (hidx 50 95 (by norm_num)) le_rfl) (hbound _)
  · exact sorted_getD_mono hs
      (min_le_min (hidx 95 99 (by norm_num)) le_rfl) (hbound _)

/-! ## MetricsCalculator (`src/src/processing/metrics/calculator.py`)

`MetricsCalculator.__init__` (line 32) takes no argument besides `self`
and builds per-instance in-memory state: `deque(maxlen=100)` windows and
`defaultdict(int)` counters.  The state type below is that per-instance
memory; it is disjoint from `RedisState` (the `SharedMetricsState`
keys). -/

/-- The per-instance in-memory state built by `MetricsCalculator.__init__`
(lines 32-49). -/
structure CalcState where
  latency_window : List Rat
  acceptance_window : List Nat
  tool_counts : List (String × Nat)
  tool_success : List (String × Nat)
  tool_failures : List (String × Nat)
  session_starts : List (String × String)
  session_tool_counts : List (String × Nat)
  session_prompt_counts : List (String × Nat)
  session_file_changes : List (String × List String)
  events_per_second : List Rat
deriving DecidableEq

/-- `MetricsCalculator()`: all windows and counters empty. -/
def CalcState.init : CalcState :=
  ⟨[], [], [], [], [], [], [], [], [], []⟩

/-- Append to a `deque(maxlen=n)`: oldest entries fall off the left. -/
def pushMax {α : Type} (maxlen : Nat) (x : α) (l : List α) : List α :=
  let l2 := l ++ [x]
  if maxlen < l2.length then l2.drop (l2.length - maxlen) else l2

/-- `defaultdict(int)` read. -/
def aGet (l : List (String × Nat)) (k : String) : Nat :=
  ((l.find? (fun p => p.1 = k)).map Prod.snd).getD 0

/-- `defaultdict(int)` write. -/
def aSet (l : List (String × Nat)) (k : String) (v : Nat) : List (String × Nat) :=
  match l with
  | [] => [(k, v)]
  | (k2, v2) :: tl => if k2 = k then (k, v) :: tl else (k2, v2) :: aSet tl k v

/-- `d[k] += 1` on a `defaultdict(int)`. -/
def aIncr (l : List (String × Nat)) (k : String) : List (String × Nat) :=
  aSet l k (aGet l k + 1)

/-- `d.pop(k, None)` / `del d[k]`. -/
def aPop {α : Type} (l : List (String × α)) (k : String) : List (String × α) :=
  l.filter (fun p => ¬p.1 = k)

/-- String-keyed read for non-`Nat` tables. -/
def aFind {α : Type} (l : List (String × α)) (k : String) : Option α :=
  (l.find? (fun p => p.1 = k)).map Prod.snd

/-- String-keyed write for non-`Nat` tables. -/
def aPut {α : Type} (l : List (String × α)) (k : String) (v : α) : List (String × α) :=
  match l with
  | [] => [(k, v)]
  | (k2, v2) :: tl => if k2 = k then (k, v) :: tl else (k2, v2) :: aPut tl k v

/-- One metric tuple `{category, name, value}` recorded by the worker. -/
structure Metric where
  category : String
  name : String
  value : Rat
deriving DecidableEq

/-- Python truthiness of a JSON value (`if accepted`, `if success`). -/
def pyTruthy : JValue → Bool
| .null => false
| .bool b => b
| .int n => n ≠ 0
| .str s => s ≠ ""
| .arr .nil => false
| .arr _ => true
| .obj .nil => false
| .obj _ => true

/-- The full event the worker hands to the calculator
(`_fetch_event_from_sqlite` builds exactly these keys; the indexed fields
the calculator never reads are omitted). -/
structure CalcEvent where
  event_id : String
  session_id : String
  event_type : String
  timestamp : String
  tool_name : Option String
  duration_ms : Option Rat
  payload : JObj
deriving DecidableEq

/-! ### ISO-8601 timestamps

`_calculate_session_metrics` parses `timestamp.replace('Z', '+00:00')`
with `datetime.fromisoformat` and subtracts.  The model parses
`YYYY-MM-DDTHH:MM:SS` with an optional `Z` or `+00:00` suffix and returns
absolute seconds on the proleptic Gregorian calendar. -/

/-- Days before the named month in a non-leap year. -/
def monthOffset (m : Nat) : Nat :=
  [0, 0, 31, 59, 90, 120, 151, 181, 212, 243, 273, 304, 334].getD m 0

/-- Gregorian leap year. -/
def isLeap (y : Nat) : Bool :=
  y % 4 = 0 && (y % 100 ≠ 0 || y % 400 = 0)

/-- Days from year 1 to the given civil date. -/
def civilDays (y m d : Nat) : Nat :=
  365 * (y - 1) + (y - 1) / 4 - (y - 1) / 100 + (y - 1) / 400 +
    monthOffset m + (if 2 < m ∧ isLeap y then 1 else 0) + (d - 1)

/-- Two decimal digits. -/
def twoDigits (a b : Char) : Option Nat :=
  match digVal a, digVal b with
  | some x, some y => some (x * 10 + y)
  | _, _ => none

/-- `datetime.fromisoformat` on `YYYY-MM-DDTHH:MM:SS(Z|+00:00)?` composed
with `.timestamp()`-style absolute seconds (UTC). -/
def isoSeconds (s : String) : Option Rat :=
  match s.data with
  | y1 :: y2 :: y3 :: y4 :: '-' :: m1 :: m2 :: '-' :: d1 :: d2 :: 'T' ::
      h1 :: h2 :: ':' :: n1 :: n2 :: ':' :: s1 :: s2 :: rest =>
    if rest = [] ∨ rest = ['Z'] ∨ rest = ['+', '0', '0', ':', '0', '0'] then
      match twoDigits y1 y2, twoDigits y3 y4, twoDigits m1 m2, twoDigits d1 d2,
          twoDigits h1 h2, twoDigits n1 n2, twoDigits s1 s2 with
      | some yh, some yl, some mo, some dy, some hh, some mi, some ss =>
        some ((((((civilDays (yh * 100 + yl) mo dy) * 24 + hh) * 60 + mi) * 60 + ss : Nat) : Rat))
      | _, _, _, _, _, _, _ => none
    else none
  | _ => none

/-! ### The calculation rules (each mirroring one `_calculate_*` method) -/

/-- `_track_session_start` (lines 401-405). -/
def track_session_start (ev : CalcEvent) (st : CalcState) : CalcState :=
  { st with session_starts := aPut st.session_starts ev.session_id ev.timestamp }

/-- `_calculate_latency_metrics` (lines 97-143). -/
def calculate_latency_metrics (ev : CalcEvent) (st : CalcState) :
    List Metric × CalcState :=
  match ev.duration_ms with
  | some d =>
    if 0 ≤ d then
      let w := pushMax 100 d st.latency_window
      let pcts :=
        if 10 ≤ w.length then
          let sorted := List.insertionSort (· ≤ ·) w
          let count := sorted.length
          [⟨"tools", "tool_latency_p50", sorted.getD (pctIdx count 50 100) 0⟩,
           ⟨"tools", "tool_latency_p95", sorted.getD (pctIdx count 95 100) 0⟩,
           ⟨"tools", "tool_latency_p99", sorted.getD (pctIdx count 99 100) 0⟩]
        else []
      (pcts ++ [⟨"tools", "tool_latency_avg", w.sum / (w.length : Rat)⟩],
       { st with latency_window := w })
    else ([], st)
  | none => ([], st)

/-- `_calculate_tool_usage_metrics` (lines 145-196). -/
def calculate_tool_usage_metrics (ev : CalcEvent) (st : CalcState) :
    List Metric × CalcState :=
  let tool := ev.tool_name.getD "unknown"
  let success := pyTruthy (ev.payload.getD "success" (.bool true))
  let counts := aIncr st.tool_counts tool
  let succ2 := if success then aIncr st.tool_success tool else st.tool_success
  let fail2 := if success then st.tool_failures else aIncr st.tool_failures tool
  let st2 := { st with
    tool_counts := counts
    tool_success := succ2
    tool_failures := fail2 }
  let attempts := aGet succ2 tool + aGet fail2 tool
  let m1 := if 0 < attempts then
      [⟨"tools", "tool_success_rate_" ++ tool,
        ((aGet succ2 tool : Rat) / (attempts : Rat)) * 100⟩]
    else []
  let totalS := (succ2.map Prod.snd).sum
  let totalF := (fail2.map Prod.snd).sum
  let m2 := if 0 < totalS + totalF then
      [⟨"tools", "tool_success_rate",
        ((totalS : Rat) / ((totalS + totalF : Nat) : Rat)) * 100⟩]
    else []
  let totalT := (counts.map Prod.snd).sum
  let m3 := if 0 < totalT then
      [⟨"tools", "tool_frequency_" ++ tool,
        ((aGet counts tool : Rat) / (totalT : Rat)) * 100⟩]
    else []
  (m1 ++ m2 ++ m3, st2)

/-- `_calculate_acceptance_metrics` (lines 198-232): the decision recorded
is `payload.get('accepted', True)` — an event whose payload lacks the
field counts as accepted. -/
def calculate_acceptance_metrics (ev : CalcEvent) (st : CalcState) :
    List Metric × CalcState :=
  let accepted := pyTruthy (ev.payload.getD "accepted" (.bool true))
  let w := pushMax 100 (if accepted then 1 else 0) st.acceptance_window
  let ms :=
    if 10 ≤ w.length then
      let rate := ((w.sum : Nat) : Rat) / (w.length : Rat)
      [⟨"session", "acceptance_rate", rate * 100⟩,
       ⟨"session", "rejection_rate", (1 - rate) * 100⟩]
    else []
  (ms, { st with acceptance_window := w })

/-- `_calculate_interaction_metrics` (lines 234-266). -/
def calculate_interaction_metrics (ev : CalcEvent) (st : CalcState) :
    List Metric × CalcState :=
  let prompts := aIncr st.session_prompt_counts ev.session_id
  let plen : Int :=
    match (ev.payload.getD "prompt_length" (.int 0)) with
    | .int n => n
    | _ => 0
  let m1 := if 0 < plen then
      [⟨"session", "prompt_length_avg", (plen : Rat)⟩] else []
  (m1 ++ [⟨"session", "prompts_per_session",
    ((aGet prompts ev.session_id : Nat) : Rat)⟩],
   { st with session_prompt_counts := prompts })

/-- `_calculate_throughput_metrics` (lines 268-296), with `time.time()`
passed in as `now`. -/
def calculate_throughput_metrics (now : Rat) (st : CalcState) :
    List Metric × CalcState :=
  let w := pushMax 60 now st.events_per_second
  let recent := w.filter (fun t => now - t ≤ 60)
  let ms :=
    if 2 ≤ recent.length then
      let span := recent.getLast?.getD 0 - recent.head?.getD 0
      if 0 < span then
        [⟨"realtime", "events_per_second", (recent.length : Rat) / span⟩]
      else []
    else []
  (ms, { st with events_per_second := w })

/-- `_calculate_session_metrics` (lines 298-352): duration and
tools-per-minute from `_session_tool_counts` (a counter that no code path
ever increments), then cleanup of `_session_starts`,
`_session_tool_counts` and `_session_file_changes` — but not
`_session_prompt_counts`. -/
def calculate_session_metrics (ev : CalcEvent) (st : CalcState) :
    List Metric × CalcState :=
  match aFind st.session_starts ev.session_id with
  | none => ([], st)
  | some startTs =>
    let ms :=
      match isoSeconds startTs, isoSeconds ev.timestamp with
      | some t0, some t1 =>
        let duration := t1 - t0
        [⟨"session", "session_duration", duration⟩] ++
        (if 0 < duration then
          [⟨"session", "tools_per_minute",
            ((aGet st.session_tool_counts ev.session_id : Rat) / duration) * 60⟩]
         else []) ++
        [⟨"session", "files_per_session",
          (((aFind st.session_file_changes ev.session_id).getD []).length : Rat)⟩]
      | _, _ => []
    (ms,
     { st with
       session_starts := aPop st.session_starts ev.session_id
       session_tool_counts := aPop st.session_tool_counts ev.session_id
       session_file_changes := aPop st.session_file_changes ev.session_id })

/-- `_calculate_composite_metrics` (lines 354-399). -/
def calculate_composite_metrics (st : CalcState) : List Metric :=
  let totalS := (st.tool_success.map Prod.snd).sum
  let totalF := (st.tool_failures.map Prod.snd).sum
  let s1 : Rat := 50 +
    (if 0 < totalS + totalF then
      ((totalS : Rat) / ((totalS + totalF : Nat) : Rat)) * 25 else 0)
  let s2 : Rat := s1 -
    (if 0 < totalF then
      ((totalF : Rat) / ((totalS + totalF : Nat) : Rat)) * 15 else 0)
  let s3 : Rat := s2 +
    (if 10 ≤ st.acceptance_window.length then
      (((st.acceptance_window.sum : Nat) : Rat) /
        (st.acceptance_window.length : Rat)) * 10 else 0)
  [⟨"session", "productivity_score", max 0 (min 100 s3)⟩]

/-- `calculate_metrics_for_event` (lines 51-95): dispatch on event type,
throughput for every event, composite metrics every tenth latency
sample. -/
def calculate_metrics_for_event (now : Rat) (ev : CalcEvent) (st : CalcState) :
    List Metric × CalcState :=
  let p1 :=
    if ev.event_type = "tool_use" ∨ ev.event_type = "mcp_execution" then
      let pa := calculate_latency_metrics ev st
      let pb := calculate_tool_usage_metrics ev pa.2
      (pa.1 ++ pb.1, pb.2)
    else if ev.event_type = "file_edit" ∨ ev.event_type = "code_change" then
      calculate_acceptance_metrics ev st
    else if ev.event_type = "user_prompt" then
      calculate_interaction_metrics ev st
    else if ev.event_type = "session_start" then
      ([], track_session_start ev st)
    else if ev.event_type = "session_end" then
      calculate_session_metrics ev st
    else ([], st)
  let p2 := calculate_throughput_metrics now p1.2
  let m3 :=
    if 0 < p2.2.latency_window.length ∧ p2.2.latency_window.length % 10 = 0 then
      calculate_composite_metrics p2.2
    else []
  (p1.1 ++ p2.1 ++ m3, p2.2)

/-! ### The constructor-arity mismatch (claim C4)

`MetricsCalculator.__init__` declares one positional parameter (`self`,
calculator.py line 32); `MetricsWorker.__init__` calls
`MetricsCalculator(self.shared_state)` (metrics_worker.py line 77), which
applies `__init__` to two positional arguments.  Python raises `TypeError`
when a call passes more positional arguments than the function accepts. -/

/-- A Python runtime error relevant here. -/
inductive PyError where
| typeError : PyError
deriving DecidableEq

/-- Positional parameters of `MetricsCalculator.__init__`, `self`
included (calculator.py line 32: `def __init__(self):`). -/
def metricsCalculatorInitParams : Nat := 1

/-- Positional arguments of the call `MetricsCalculator(self.shared_state)`
(metrics_worker.py line 77): the implicit `self` plus `shared_state`. -/
def metricsWorkerCalcCallArgs : Nat := 2

/-- Python positional-call checking: more arguments than parameters is a
`TypeError`. -/
def pythonCallInit (params args : Nat) : Except PyError Unit :=
  if params < args then .error .typeError else .ok ()

/-! ## Fast-Path Consumer (`src/src/processing/fast_path/consumer.py`)

`_read_messages` produces dictionaries `{'id': msg_id, 'event': event}`
with `event = None` on a parse failure.  `_process_batch` (lines 181-222)
dead-letters the `None` events, writes the rest through
`self.sqlite_writer.write_batch`, publishes CDC pointers, and returns the
ids of the written messages; on a write exception it returns `[]` so
nothing is acknowledged.  `_ack_messages` (lines 224-241) XACKs the ids
it is given.  The timeout flush in `run` (lines 365-377) writes a batch
without acknowledging anything.

Modelled from the spec: `write_batch` itself (`SQLiteBatchWriter` in
`src/src/blueplane/processing/database/writer.py` carries only
`compress_event`; the platform writers with the actual `write_batch` are
not in the repository).  Per the Durable Writer contract it assigns
consecutive sequence numbers atomically with the persisted rows — all or
nothing — and per the ack-after-write property the write path is
idempotent per `event_id`, so a redelivered event does not create a
second row. -/

/-- A queue message as `_read_messages` returns it: `event = none` marks
a parse failure. -/
structure Msg where
  id : String
  event : Option JObj
deriving DecidableEq

/-- The key the durable writer deduplicates on: the event's `event_id`
value. -/
def rowKey (e : JObj) : Option JValue := e.lookup "event_id"

/-- Durable-log rows: assigned sequence number paired with the stored
event. -/
abbrev StorageRows : Type := List (Nat × JObj)

/-- How many stored rows carry the given `event_id` value. -/
def countRows (rows : StorageRows) (eid : JValue) : Nat :=
  (List.filter (fun r => rowKey r.2 = some eid) rows).length

/-- Modelled from the spec: one idempotent durable write.  A fresh
`event_id` gets the next sequence number; a redelivered one returns the
already-assigned sequence without a second row. -/
def writeOne (rows : StorageRows) (next : Nat) (e : JObj) :
    StorageRows × Nat × Nat :=
  match List.find? (fun r => rowKey r.2 = rowKey e) rows with
  | some r => (rows, next, r.1)
  | none => (rows ++ [(next, e)], next + 1, next)

/-- Modelled from the spec: `writeBatch(events) -> sequence numbers`
(same length and order as the input), sequences assigned atomically with
the persisted rows. -/
def write_batch (rows : StorageRows) (next : Nat) :
    List JObj → StorageRows × Nat × List Nat
| [] => (rows, next, [])
| e :: tl =>
  let w1 := writeOne rows next e
  let w2 := write_batch w1.1 w1.2.1 tl
  (w2.1, w2.2.1, w1.2.2 :: w2.2.2)

/-- Fast-path consumer state: the durable log, the high-water mark, the
acknowledged message ids, the published CDC pointers and the fast-path
DLQ. -/
structure CState where
  storage : StorageRows
  next_seq : Nat
  acked : List String
  cdc : List (Nat × JObj)
  dlq : List String
deriving DecidableEq

/-- Fresh pipeline. -/
def CState.init : CState := ⟨[], 1, [], [], []⟩

/-- `_process_batch` (lines 181-222) with the write outcome made
explicit (`ok = false` models `write_batch` raising, in which case the
at-most-one-commit contract persists nothing).  Returns the post state
and the message ids handed to `_ack_messages`. -/
def process_batch (st : CState) (msgs : List Msg) (ok : Bool) :
    CState × List String :=
  if msgs = [] then (st, [])
  else
    let valid := msgs.filter (fun m => m.event.isSome)
    let invalid := msgs.filter (fun m => ¬m.event.isSome)
    let st0 := { st with dlq := st.dlq ++ invalid.map Msg.id }
    let events := valid.filterMap Msg.event
    if events = [] then (st0, [])
    else if ok then
      let wb := write_batch st0.storage st0.next_seq events
      ({ st0 with
         storage := wb.1
         next_seq := wb.2.1
         cdc := st0.cdc ++ wb.2.2.zip events },
       valid.map Msg.id)
    else (st0, [])

/-- `_ack_messages` (lines 224-241). -/
def ack_messages (st : CState) (ids : List String) : CState :=
  { st with acked := st.acked ++ ids }

/-- The call sequence `processed_ids = await self._process_batch(...)`
then `await self._ack_messages(processed_ids)` (run lines 358-359,
pending path lines 312-313). -/
def consume (st : CState) (msgs : List Msg) (ok : Bool) : CState :=
  let pb := process_batch st msgs ok
  ack_messages pb.1 pb.2

/-- A crash between the write and the ack: `_process_batch` completed,
`_ack_messages` never ran. -/
def crashAfterWrite (st : CState) (msgs : List Msg) (ok : Bool) : CState :=
  (process_batch st msgs ok).1

/-- The timeout flush (run lines 365-377): write and publish, no ack. -/
def timeout_flush (st : CState) (batch : List JObj) (ok : Bool) : CState :=
  if batch = [] then st
  else if ok then
    let wb := write_batch st.storage st.next_seq batch
    { st with
      storage := wb.1
      next_seq := wb.2.1
      cdc := st.cdc ++ wb.2.2.zip batch }
  else st

/-- One observable consumer action: a full process-and-ack pass, the
same pass cut short by a crash before the ack, or a timeout flush. -/
inductive CAct where
| batch (msgs : List Msg) (ok : Bool)
| crashed (msgs : List Msg) (ok : Bool)
| flush (events : List JObj) (ok : Bool)
deriving DecidableEq

/-- Apply one action. -/
def cstep (st : CState) : CAct → CState
| .batch msgs ok => consume st msgs ok
| .crashed msgs ok => crashAfterWrite st msgs ok
| .flush events ok => timeout_flush st events ok

/-- A consumer run from the fresh pipeline. -/
def crun (acts : List CAct) : CState :=
  acts.foldl cstep CState.init

/-- Acknowledgments happen only after the durable write: any message id
a pass adds to `acked` belongs to a message of that pass whose event is
in durable storage when the ack fires. -/
def ackOnlyAfterWrite : Prop :=
  ∀ st msgs ok i, i ∈ (consume st msgs ok).acked →
    i ∈ st.acked ∨
    ∃ m, m ∈ msgs ∧ m.id = i ∧ ∃ e, m.event = some e ∧
      (List.find? (fun r => rowKey r.2 = rowKey e) (consume st msgs ok).storage).isSome

/-- No `event_id` value is stored twice. -/
def noDupRows (st : CState) : Prop :=
  ∀ eid : JValue, countRows st.storage eid ≤ 1

/-! ### Storage lemmas -/

theorem countRows_append (l1 l2 : StorageRows) (eid : JValue) :
    countRows (l1 ++ l2) eid = countRows l1 eid + countRows l2 eid := by
  simp [countRows, List.filter_append]

theorem find?_none_countRows_zero (rows : StorageRows) (e : JObj) (eid : JValue)
    (h : List.find? (fun r => rowKey r.2 = rowKey e) rows = none)
    (hk : rowKey e = some eid) :
    countRows rows eid = 0 := by
  rw [List.find?_eq_none] at h
  simp only [countRows, List.length_eq_zero, List.filter_eq_nil_iff]
  intro r hr
  have := h r hr
  simp only [decide_eq_true_eq] at this ⊢
  rw [hk] at this
  exact this

theorem find?_isSome_countRows_pos (rows : StorageRows) (e : JObj) (eid : JValue)
    (h : (List.find? (fun r => rowKey r.2 = rowKey e) rows).isSome)
    (hk : rowKey e = some eid) :
    1 ≤ countRows rows eid := by
  rw [Option.isSome_iff_exists] at h
  obtain ⟨r, hr⟩ := h
  have hmem := List.mem_of_find?_eq_some hr
  have hp := List.find?_some hr
  simp only [decide_eq_true_eq] at hp
  have : r ∈ List.filter (fun r => rowKey r.2 = some eid) rows := by
    rw [List.mem_filter]
    refine ⟨hmem, ?_⟩
    simp only [decide_eq_true_eq]
    rw [hp, hk]
  have := List.length_pos.mpr (List.ne_nil_of_mem this)
  simpa [countRows] using this

/-- No row stored twice. -/
def noDupStorage (rows : StorageRows) : Prop :=
  ∀ eid : JValue, countRows rows eid ≤ 1

theorem writeOne_grows (rows : StorageRows) (next : Nat) (e : JObj) :
    ∃ ext, (writeOne rows next e).1 = rows ++ ext := by
  rw [writeOne]
  cases h : List.find? (fun r => rowKey r.2 = rowKey e) rows with
  | some r => exact ⟨[], by simp⟩
  | none => exact ⟨[(next, e)], by simp⟩

theorem write_batch_grows (es : List JObj) (rows : StorageRows) (next : Nat) :
    ∃ ext, (write_batch rows next es).1 = rows ++ ext := by
  induction es generalizing rows next with
  | nil => exact ⟨[], by simp [write_batch]⟩
  | cons e tl ih =>
    obtain ⟨ext1, h1⟩ := writeOne_grows rows next e
    obtain ⟨ext2, h2⟩ := ih (writeOne rows next e).1 (writeOne rows next e).2.1
    refine ⟨ext1 ++ ext2, ?_⟩
    rw [write_batch]
    simp only []
    rw [h2, h1, List.append_assoc]

theorem find?_append_isSome {p : Nat × JObj → Bool} (l l2 : StorageRows)
    (h : (List.find? p l).isSome) : (List.find? p (l ++ l2)).isSome := by
  rw [List.find?_append]
  cases h2 : List.find? p l with
  | some r => simp
  | none => rw [h2] at h; cases h

theorem writeOne_finds (rows : StorageRows) (next : Nat) (e : JObj) :
    (List.find? (fun r => rowKey r.2 = rowKey e) (writeOne rows next e).1).isSome := by
  rw [writeOne]
  cases h : List.find? (fun r => rowKey r.2 = rowKey e) rows with
  | some r => simp [h]
  | none =>
    simp only []
    rw [List.find?_append, h]
    simp

theorem find?_isSome_of_grow (rows rows2 : StorageRows) (e : JObj)
    (hgrow : ∃ ext, rows2 = rows ++ ext)
    (h : (List.find? (fun r => rowKey r.2 = rowKey e) rows).isSome) :
    (List.find? (fun r => rowKey r.2 = rowKey e) rows2).isSome := by
  obtain ⟨ext, hext⟩ := hgrow
  rw [hext]
  exact find?_append_isSome rows ext h

theorem write_batch_finds (es : List JObj) (rows : StorageRows) (next : Nat)
    (e : JObj) (he : e ∈ es) :
    (List.find? (fun r => rowKey r.2 = rowKey e) (write_batch rows next es).1).isSome := by
  induction es generalizing rows next with
  | nil => cases he
  | cons e2 tl ih =>
    rw [write_batch]
    simp only []
    rcases List.mem_cons.mp he with h | h
    · subst h
      exact find?_isSome_of_grow _ _ _
        (write_batch_grows tl (writeOne rows next e).1 (writeOne rows next e).2.1)
        (writeOne_finds rows next e)
    · exact ih _ _ h

theorem writeOne_count_self (rows : StorageRows) (next : Nat) (e : JObj)
    (eid : JValue) (hnd : noDupStorage rows) (hk : rowKey e = some eid) :
    countRows (writeOne rows next e).1 eid = 1 := by
  rw [writeOne]
  cases h : List.find? (fun r => rowKey r.2 = rowKey e) rows with
  | some r =>
    simp only []
    have h1 := find?_isSome_countRows_pos rows e eid (by rw [h]; rfl) hk
    exact Nat.le_antisymm (hnd eid) h1
  | none =>
    simp only []
    rw [countRows_append, find?_none_countRows_zero rows e eid h hk]
    simp [countRows, List.filter, hk]

theorem writeOne_count_other (rows : StorageRows) (next : Nat) (e : JObj)
    (eid : JValue) (hk : ¬rowKey e = some eid) :
    countRows (writeOne rows next e).1 eid = countRows rows eid := by
  rw [writeOne]
  cases h : List.find? (fun r => rowKey r.2 = rowKey e) rows with
  | some r => simp only []
  | none =>
    simp only []
    rw [countRows_append]
    simp [countRows, List.filter, hk]

theorem writeOne_noDup (rows : StorageRows) (next : Nat) (e : JObj)
    (hnd : noDupStorage rows) : noDupStorage (writeOne rows next e).1 := by
  intro eid
  by_cases hk : rowKey e = some eid
  · rw [writeOne_count_self rows next e eid hnd hk]
  · rw [writeOne_count_other rows next e eid hk]
    exact hnd eid

theorem write_batch_noDup (es : List JObj) (rows : StorageRows) (next : Nat)
    (hnd : noDupStorage rows) : noDupStorage (write_batch rows next es).1 := by
  induction es generalizing rows next with
  | nil => simpa [write_batch] using hnd
  | cons e tl ih =>
    rw [write_batch]
    simp only []
    exact ih _ _ (writeOne_noDup rows next e hnd)

theorem process_batch_storage (st : CState) (msgs : List Msg) (ok : Bool) :
    (process_batch st msgs ok).1.storage = st.storage ∨
    (process_batch st msgs ok).1.storage =
      (write_batch st.storage st.next_seq
        ((msgs.filter (fun m => m.event.isSome)).filterMap Msg.event)).1 := by
  rw [process_batch]
  by_cases h0 : msgs = []
  · rw [if_pos h0]
    exact Or.inl rfl
  · rw [if_neg h0]
    simp only []
    by_cases h1 : (msgs.filter (fun m => m.event.isSome)).filterMap Msg.event = []
    · rw [if_pos h1]
      exact Or.inl rfl
    · rw [if_neg h1]
      cases ok with
      | true => exact Or.inr rfl
      | false => exact Or.inl rfl

theorem process_batch_noDup (st : CState) (msgs : List Msg) (ok : Bool)
    (hnd : noDupStorage st.storage) :
    noDupStorage (process_batch st msgs ok).1.storage := by
  rcases process_batch_storage st msgs ok with h | h
  · rw [h]; exact hnd
  · rw [h]; exact write_batch_noDup _ _ _ hnd

theorem consume_storage (st : CState) (msgs : List Msg) (ok : Bool) :
    (consume st msgs ok).storage = (process_batch st msgs ok).1.storage := rfl

theorem consume_noDup (st : CState) (msgs : List Msg) (ok : Bool)
    (hnd : noDupStorage st.storage) :
    noDupStorage (consume st msgs ok).storage := by
  rw [consume_storage]
  exact process_batch_noDup st msgs ok hnd

theorem timeout_flush_noDup (st : CState) (batch : List JObj) (ok : Bool)
    (hnd : noDupStorage st.storage) :
    noDupStorage (timeout_flush st batch ok).storage := by
  rw [timeout_flush]
  by_cases h0 : batch = []
  · rw [if_pos h0]; exact hnd
  · rw [if_neg h0]
    cases ok with
    | true => exact write_batch_noDup _ _ _ hnd
    | false => exact hnd

theorem cstep_noDup (st : CState) (a : CAct)
    (hnd : noDupStorage st.storage) : noDupStorage (cstep st a).storage := by
  cases a with
  | batch msgs ok => exact consume_noDup st msgs ok hnd
  | crashed msgs ok => exact process_batch_noDup st msgs ok hnd
  | flush events ok => exact timeout_flush_noDup st events ok hnd

theorem crun_noDup (acts : List CAct) : noDupStorage (crun acts).storage := by
  have base : noDupStorage CState.init.storage := by
    intro eid
    simp [CState.init, countRows]
  rw [crun]
  induction acts with
  | nil => exact base
  | cons a tl ih =>
    rw [List.foldl_cons]
    have : ∀ st : CState, noDupStorage st.storage →
        noDupStorage (List.foldl cstep st tl).storage := by
      clear ih
      induction tl with
      | nil => intro st h; exact h
      | cons b tl2 ih2 =>
        intro st h
        rw [List.foldl_cons]
        exact ih2 _ (cstep_noDup st b h)
    exact this _ (cstep_noDup CState.init a base)

/-! ### Acknowledgment lemmas -/

theorem process_batch_acked (st : CState) (msgs : List Msg) (ok : Bool) :
    (process_batch st msgs ok).1.acked = st.acked := by
  rw [process_batch]
  by_cases h0 : msgs = []
  · rw [if_pos h0]
  · rw [if_neg h0]
    simp only []
    by_cases h1 : (msgs.filter (fun m => m.event.isSome)).filterMap Msg.event = []
    · rw [if_pos h1]
    · rw [if_neg h1]
      cases ok with
      | true => rfl
      | false => rfl

theorem consume_acked (st : CState) (msgs : List Msg) (ok : Bool) :
    (consume st msgs ok).acked = st.acked ++ (process_batch st msgs ok).2 := by
  simp only [consume, ack_messages]
  rw [process_batch_acked]

theorem process_batch_ids (st : CState) (msgs : List Msg) (ok : Bool) :
    (process_batch st msgs ok).2 = [] ∨
    ((process_batch st msgs ok).2 =
        (msgs.filter (fun m => m.event.isSome)).map Msg.id ∧
      (process_batch st msgs ok).1.storage =
        (write_batch st.storage st.next_seq
          ((msgs.filter (fun m => m.event.isSome)).filterMap Msg.event)).1) := by
  rw [process_batch]
  by_cases h0 : msgs = []
  · rw [if_pos h0]
    exact Or.inl rfl
  · rw [if_neg h0]
    simp only []
    by_cases h1 : (msgs.filter (fun m => m.event.isSome)).filterMap Msg.event = []
    · rw [if_pos h1]
      exact Or.inl rfl
    · rw [if_neg h1]
      cases ok with
      | true => exact Or.inr ⟨rfl, rfl⟩
      | false => exact Or.inl rfl

theorem ack_after_write : ackOnlyAfterWrite := by
  intro st msgs ok i hi
  rw [consume_acked] at hi
  rcases List.mem_append.mp hi with h | h
  · exact Or.inl h
  · rcases process_batch_ids st msgs ok with hids | ⟨hids, hsto⟩
    · rw [hids] at h
      cases h
    · rw [hids] at h
      obtain ⟨m, hm, hmi⟩ := List.mem_map.mp h
      have hmem := List.mem_filter.mp hm
      obtain ⟨e, he⟩ := Option.isSome_iff_exists.mp (by simpa using hmem.2)
      refine Or.inr ⟨m, hmem.1, hmi, e, he, ?_⟩
      rw [consume_storage, hsto]
      refine write_batch_finds _ _ _ _ ?_
      rw [List.mem_filterMap]
      exact ⟨m, hm, he⟩

/-! ### Redelivery lemmas -/

theorem write_batch_single (rows : StorageRows) (next : Nat) (e : JObj) :
    (write_batch rows next [e]).1 = (writeOne rows next e).1 := by
  simp only [write_batch]

theorem process_batch_single_storage (st : CState) (m : Msg) (e : JObj)
    (he : m.event = some e) :
    (process_batch st [m] true).1.storage = (writeOne st.storage st.next_seq e).1 := by
  rw [process_batch]
  rw [if_neg (by simp : ¬([m] = []))]
  simp only []
  have hf : List.filter (fun m => m.event.isSome) [m] = [m] := by
    simp [List.filter, he]
  rw [hf]
  have hfm : List.filterMap Msg.event [m] = [e] := by
    simp [List.filterMap, he]
  rw [hfm]
  rw [if_neg (by simp : ¬([e] = []))]
  rw [if_pos trivial]
  simp only []
  rw [write_batch_single]

theorem crashAfterWrite_storage (st : CState) (m : Msg) (e : JObj)
    (he : m.event = some e) :
    (crashAfterWrite st [m] true).storage = (writeOne st.storage st.next_seq e).1 := by
  rw [crashAfterWrite]
  exact process_batch_single_storage st m e he

theorem crashAfterWrite_noDup (st : CState) (msgs : List Msg) (ok : Bool)
    (hnd : noDupStorage st.storage) :
    noDupStorage (crashAfterWrite st msgs ok).storage := by
  rw [crashAfterWrite]
  exact process_batch_noDup st msgs ok hnd

theorem redeliver_one_row (acts : List CAct) (m : Msg) (e : JObj) (eid : JValue)
    (he : m.event = some e) (hk : rowKey e = some eid) :
    countRows ((consume (crashAfterWrite (crun acts) [m] true) [m] true).storage)
      eid = 1 := by
  have hnd0 : noDupStorage (crun acts).storage := crun_noDup acts
  have hnd1 : noDupStorage (crashAfterWrite (crun acts) [m] true).storage :=
    crashAfterWrite_noDup _ _ _ hnd0
  rw [consume_storage, process_batch_single_storage _ m e he]
  exact writeOne_count_self _ _ _ _ hnd1 hk

theorem flush_then_redeliver_one_row (acts : List CAct) (m : Msg) (e : JObj)
    (eid : JValue) (he : m.event = some e) (hk : rowKey e = some eid) :
    countRows ((consume (timeout_flush (crun acts) [e] true) [m] true).storage)
      eid = 1 := by
  have hnd0 : noDupStorage (crun acts).storage := crun_noDup acts
  have hnd1 : noDupStorage (timeout_flush (crun acts) [e] true).storage :=
    timeout_flush_noDup _ _ _ hnd0
  rw [consume_storage, process_batch_single_storage _ m e he]
  exact writeOne_count_self _ _ _ _ hnd1 hk

/-! ### Failed-write lemmas (claim C2) -/

theorem process_batch_fail_ids (st : CState) (msgs : List Msg) :
    (process_batch st msgs false).2 = [] := by
  rw [process_batch]
  by_cases h0 : msgs = []
  · rw [if_pos h0]
  · rw [if_neg h0]
    simp only []
    by_cases h1 : (msgs.filter (fun m => m.event.isSome)).filterMap Msg.event = []
    · rw [if_pos h1]
    · rw [if_neg h1]
      rfl

theorem consume_fail_acked (st : CState) (msgs : List Msg) :
    (consume st msgs false).acked = st.acked := by
  rw [consume_acked, process_batch_fail_ids]
  simp

/-! ## Slow-path worker base (`src/src/processing/slow_path/worker_base.py`)

`_decode_message` (lines 188-201) decodes every field key and value to
`str`.  `_process_message` (lines 142-186) applies the priority filter —
`event.get('priority', 5)` against `self.priorities`, a list of `int` —
then runs `process_event` and acknowledges, or hands failures to
`_handle_failed_message` (lines 203-267), which dead-letters after the
broker-tracked delivery count reaches the hard-coded threshold `3`
(line 224) and otherwise leaves the message pending. -/

/-- The dead-letter threshold hard-coded at worker_base.py line 224. -/
def max_retries : Nat := 3

/-- A Python value as it participates in `priority not in self.priorities`:
decoded stream fields are `str`, the default and the configured levels are
`int`, and `str == int` is always `False`. -/
inductive PyVal where
| str : String → PyVal
| int : Int → PyVal
deriving DecidableEq

/-- Python `in` over a list of ints. -/
def pyMem (v : PyVal) (ps : List Int) : Bool :=
  ps.any (fun p => decide (v = PyVal.int p))

/-- `str(n)` for a natural number. -/
def natToStr (n : Nat) : String := String.mk (natChars n)

/-- Slow-path worker-visible broker state: the pending-entries list with
the broker-tracked delivery counts, the acknowledged ids, the dead-letter
stream and the events handed to `process_event`. -/
structure WState where
  pel : List (String × Nat)
  acked : List String
  dlq : List (String × List (String × String))
  processed : List (List (String × String))
deriving DecidableEq

/-- Fresh worker view. -/
def WState.init : WState := ⟨[], [], [], []⟩

/-- One broker delivery: Redis increments the PEL delivery counter. -/
def deliverMsg (pel : List (String × Nat)) (mid : String) : List (String × Nat) :=
  aIncr pel mid

/-- `_get_delivery_count` (lines 269-305): the PEL entry's
`times_delivered`, defaulting to `1` when absent. -/
def get_delivery_count (pel : List (String × Nat)) (mid : String) : Nat :=
  (aFind pel mid).getD 1

/-- `_decode_message` (lines 188-201): every key and value becomes `str`. -/
def decode_message (fields : List (String × String)) : List (String × String) :=
  fields

/-- `event.get('priority', 5)` on a decoded message: a `str` when the
field is present, the `int` `5` when it is not. -/
def msgPriority (event : List (String × String)) : PyVal :=
  match aFind event "priority" with
  | some v => PyVal.str v
  | none => PyVal.int 5

/-- `_handle_failed_message` (lines 203-267): at delivery count
`>= max_retries`, copy the fields, set `error`, `failed_at`,
`original_message_id` and `delivery_count`, append to the dead-letter
stream and acknowledge; below the threshold leave the message pending. -/
def handle_failed_message (st : WState) (mid : String)
    (fields : List (String × String)) (errMsg now : String) : WState :=
  let dc := get_delivery_count st.pel mid
  if max_retries ≤ dc then
    let entry := aPut (aPut (aPut (aPut fields "error" errMsg)
      "failed_at" now) "original_message_id" mid)
      "delivery_count" (natToStr dc)
    { st with
      dlq := st.dlq ++ [(mid, entry)]
      acked := st.acked ++ [mid]
      pel := aPop st.pel mid }
  else st

/-- `_process_message` (lines 142-186), with the subclass
`process_event` outcome made explicit (`ok = false` models it raising).
Returns the post state and whether `process_event` ran. -/
def process_message (priorities : Option (List Int)) (st : WState)
    (mid : String) (fields : List (String × String)) (ok : Bool)
    (errMsg now : String) : WState × Bool :=
  let event := decode_message fields
  let skip : Bool :=
    match priorities with
    | some ps => ¬pyMem (msgPriority event) ps
    | none => false
  if skip then
    ({ st with acked := st.acked ++ [mid], pel := aPop st.pel mid }, false)
  else if ok then
    ({ st with
       processed := st.processed ++ [event]
       acked := st.acked ++ [mid]
       pel := aPop st.pel mid }, true)
  else (handle_failed_message st mid fields errMsg now, false)

/-- One delivery attempt of a message whose processing always throws, to
a worker with no priority filter: the broker delivers (incrementing the
PEL counter), processing raises, `_handle_failed_message` runs. -/
def poisonAttempt (st : WState) (mid : String)
    (fields : List (String × String)) (errMsg now : String) : WState :=
  (process_message none { st with pel := deliverMsg st.pel mid }
    mid fields false errMsg now).1

/-- `MetricsWorker.__init__` passes `priorities=[1, 2, 3]`
(metrics_worker.py line 67). -/
def metricsWorkerPriorities : List Int := [1, 2, 3]

/-! ### Poison-message lemmas -/

theorem poison_trace (mid : String) (fields : List (String × String))
    (errMsg now : String) :
    poisonAttempt WState.init mid fields errMsg now =
      ⟨[(mid, 1)], [], [], []⟩ ∧
    poisonAttempt ⟨[(mid, 1)], [], [], []⟩ mid fields errMsg now =
      ⟨[(mid, 2)], [], [], []⟩ ∧
    poisonAttempt ⟨[(mid, 2)], [], [], []⟩ mid fields errMsg now =
      ⟨[], [mid],
        [(mid, aPut (aPut (aPut (aPut fields "error" errMsg)
          "failed_at" now) "original_message_id" mid)
          "delivery_count" (natToStr 3))], []⟩ := by
  refine ⟨?_, ?_, ?_⟩ <;>
    simp [poisonAttempt, process_message, decode_message, handle_failed_message,
      deliverMsg, aIncr, aGet, aSet, aFind, aPop, get_delivery_count,
      max_retries, WState.init, List.find?, List.filter]

theorem natToStr_three : natToStr 3 = "3" := by
  have h : Nat.digits 10 3 = [3] := by simp
  rw [natToStr, natChars, if_neg (by decide), h]
  rfl

/-! ### The session-lifecycle scenario (spec §8): `session_start` at t0,
two `tool_use`, one `user_prompt`, `session_end` at t0+60s. -/

def sessEv0 : CalcEvent := ⟨"e0", "s1", "session_start", "2025-01-01T00:00:00Z", none, none, .nil⟩
def sessEv1 : CalcEvent := ⟨"e1", "s1", "tool_use", "2025-01-01T00:00:10Z", some "Edit", none, .nil⟩
def sessEv2 : CalcEvent := ⟨"e2", "s1", "tool_use", "2025-01-01T00:00:20Z", some "Edit", none, .nil⟩
def sessEv3 : CalcEvent := ⟨"e3", "s1", "user_prompt", "2025-01-01T00:00:30Z", none, none, .nil⟩
def sessEv4 : CalcEvent := ⟨"e4", "s1", "session_end", "2025-01-01T00:01:00Z", none, none, .nil⟩

/-- One `calculate_metrics_for_event` call, keeping the state. -/
def sessStep (st : CalcState) (ev : CalcEvent) : CalcState :=
  (calculate_metrics_for_event 0 ev st).2

/-- Calculator state after start, two tool uses and one prompt. -/
def sessSt4 : CalcState :=
  sessStep (sessStep (sessStep (sessStep CalcState.init sessEv0) sessEv1) sessEv2) sessEv3

/-- The metrics emitted for the `session_end` event. -/
def sessMs : List Metric := (calculate_metrics_for_event 0 sessEv4 sessSt4).1

/-- Calculator state after the `session_end` event. -/
def sessSt5 : CalcState := (calculate_metrics_for_event 0 sessEv4 sessSt4).2

theorem sessMs_eq : sessMs =
    [⟨"session", "session_duration", (60 : Rat)⟩,
     ⟨"session", "tools_per_minute", 0⟩,
     ⟨"session", "files_per_session", 0⟩] := by
  have h1 : aFind sessSt4.session_starts "s1" = some "2025-01-01T00:00:00Z" := by decide
  have h2 : isoSeconds "2025-01-01T00:00:00Z" = some (((63871286400 : Nat) : Rat)) := by decide
  have h3 : isoSeconds "2025-01-01T00:01:00Z" = some (((63871286460 : Nat) : Rat)) := by decide
  have h4 : aGet sessSt4.session_tool_counts "s1" = 0 := by decide
  have h5 : aFind sessSt4.session_file_changes "s1" = none := by decide
  have h6 : sessSt4.events_per_second = [0, 0, 0, 0] := by decide
  have h7 : sessSt4.latency_window = [] := by decide
  rw [sessMs, calculate_metrics_for_event]
  simp [sessEv4, calculate_session_metrics, h1, h2, h3, h4, h5, h6, h7,
    calculate_throughput_metrics, pushMax, calculate_composite_metrics]
  norm_num

/-! ### Acceptance-default helpers (claims C4, C5) -/

/-- A `file_edit` event whose payload lacks the `accepted` field. -/
def accEvNoField : CalcEvent :=
  ⟨"a1", "s1", "file_edit", "2025-01-01T00:00:00Z", none, none, .nil⟩

/-- A calculator state whose acceptance window holds ten rejections. -/
def accSt0 : CalcState :=
  { CalcState.init with acceptance_window := [0, 0, 0, 0, 0, 0, 0, 0, 0, 0] }

/-- The acceptance rate lines 217-222 compute over a window. -/
def acceptanceRate (w : List Nat) : Rat :=
  ((w.sum : Rat) / (w.length : Rat)) * 100

theorem acceptance_default_accept (ev : CalcEvent) (st : CalcState)
    (h1 : ev.payload.lookup "accepted" = none)
    (h2 : st.acceptance_window.length < 100) :
    (calculate_acceptance_metrics ev st).2.acceptance_window =
      st.acceptance_window ++ [1] := by
  rw [calculate_acceptance_metrics]
  simp only [JObj.getD, h1, Option.getD, pyTruthy, pushMax]
  rw [if_neg (by simp; omega)]
  simp

theorem accNoField_window :
    (calculate_acceptance_metrics accEvNoField accSt0).2.acceptance_window =
      accSt0.acceptance_window ++ [1] := by decide

theorem accNoField_metrics :
    (calculate_acceptance_metrics accEvNoField accSt0).1 =
      [⟨"session", "acceptance_rate", ((1 : Rat) / 11) * 100⟩,
       ⟨"session", "rejection_rate", (1 - (1 : Rat) / 11) * 100⟩] := by
  rw [calculate_acceptance_metrics]
  simp [accEvNoField, accSt0, CalcState.init, pyTruthy, pushMax, JObj.getD, JObj.lookup]

theorem accNoField_rate_changes :
    acceptanceRate ((calculate_acceptance_metrics accEvNoField accSt0).2.acceptance_window) ≠
      acceptanceRate accSt0.acceptance_window := by
  rw [accNoField_window]
  simp [acceptanceRate, accSt0, CalcState.init]

/-! ### Shared acceptance-window scenario (claim C6) -/

/-- Three decisions — accept, accept, reject — recorded at times 1, 2, 3. -/
def accSeq : RedisState :=
  add_acceptance false 3 (add_acceptance true 2 (add_acceptance true 1 RedisState.empty))

theorem accSeq_window : accSeq.acceptance_window = [("1", 2), ("0", 3)] := by decide

theorem accSeq_rate : get_acceptance_rate accSeq = 50 := by
  have hr : accSeq.acceptance_window.zrange = ["1", "0"] := by decide
  have h1 : memberVal "1" = 1 := by decide
  have h0 : memberVal "0" = 0 := by decide
  rw [get_acceptance_rate]
  simp [hr, h1, h0]
  norm_num

/-! ### The worker priority-filter scenario (claim C10) -/

/-- A delivered CDC message whose `priority` field is the digit `2`. -/
def c10fields : List (String × String) := [("sequence", "7"), ("priority", "2")]

/-! ## The claims -/

/-- C1: queue messages are acknowledged only after the durable write that
assigned their event a sequence number, and redelivery after a crash
between write and ack — also for events written by the timeout flush —
leaves exactly one stored row per `event_id`. -/
theorem claim_C1 :
    ackOnlyAfterWrite ∧
    (∀ acts : List CAct, noDupStorage (crun acts).storage) ∧
    (∀ (acts : List CAct) (m : Msg) (e : JObj) (eid : JValue),
      m.event = some e → rowKey e = some eid →
      countRows ((consume (crashAfterWrite (crun acts) [m] true) [m] true).storage)
        eid = 1) ∧
    (∀ (acts : List CAct) (m : Msg) (e : JObj) (eid : JValue),
      m.event = some e → rowKey e = some eid →
      countRows ((consume (timeout_flush (crun acts) [e] true) [m] true).storage)
        eid = 1) :=
  ⟨ack_after_write, crun_noDup, redeliver_one_row, flush_then_redeliver_one_row⟩

/-- C2: a failed durable write acknowledges nothing — `_process_batch`
returns no ids and the batch pass leaves `acked` unchanged, so the whole
batch is redelivered. -/
theorem claim_C2 :
    (∀ (st : CState) (msgs : List Msg), (process_batch st msgs false).2 = []) ∧
    (∀ (st : CState) (msgs : List Msg), (consume st msgs false).acked = st.acked) :=
  ⟨process_batch_fail_ids, consume_fail_acked⟩

/-- C3: a message whose processing always throws is left unacknowledged at
delivery counts 1 and 2 and, on the third delivery, produces exactly one
dead-letter entry — the original fields plus `error`, `failed_at`,
`original_message_id` and `delivery_count = "3"` — and is then
acknowledged. -/
theorem claim_C3 :
    (∀ (mid : String) (fields : List (String × String)) (errMsg now : String),
      poisonAttempt WState.init mid fields errMsg now = ⟨[(mid, 1)], [], [], []⟩ ∧
      poisonAttempt ⟨[(mid, 1)], [], [], []⟩ mid fields errMsg now =
        ⟨[(mid, 2)], [], [], []⟩ ∧
      poisonAttempt ⟨[(mid, 2)], [], [], []⟩ mid fields errMsg now =
        ⟨[], [mid],
          [(mid, aPut (aPut (aPut (aPut fields "error" errMsg)
            "failed_at" now) "original_message_id" mid)
            "delivery_count" (natToStr max_retries))], []⟩) ∧
    natToStr max_retries = "3" :=
  ⟨poison_trace, natToStr_three⟩

/-- C4: the claim that metric-calculation state lives in the shared
Redis-backed store fails in the code: `MetricsWorker.__init__` calls
`MetricsCalculator(self.shared_state)` although `__init__` takes no
argument (a `TypeError`), and the calculator's own windows are
per-instance in-memory state, created empty and mutated locally. -/
theorem claim_C4 :
    pythonCallInit metricsCalculatorInitParams metricsWorkerCalcCallArgs =
      .error .typeError ∧
    metricsCalculatorInitParams < metricsWorkerCalcCallArgs ∧
    CalcState.init.acceptance_window = [] ∧
    (calculate_acceptance_metrics accEvNoField CalcState.init).2.acceptance_window =
      [1] :=
  ⟨rfl, by decide, rfl, by decide⟩

/-- C5 (corrected): a processed `file_edit` event whose payload lacks the
`accepted` field IS recorded — as an acceptance, because the code defaults
`payload.get('accepted', True)` — so the window grows by a `1` and the
acceptance rate changes rather than staying equal. -/
theorem claim_C5 :
    (∀ (ev : CalcEvent) (st : CalcState),
      ev.payload.lookup "accepted" = none →
      st.acceptance_window.length < 100 →
      (calculate_acceptance_metrics ev st).2.acceptance_window =
        st.acceptance_window ++ [1]) ∧
    (calculate_acceptance_metrics accEvNoField accSt0).1 =
      [⟨"session", "acceptance_rate", ((1 : Rat) / 11) * 100⟩,
       ⟨"session", "rejection_rate", (1 - (1 : Rat) / 11) * 100⟩] ∧
    acceptanceRate
        ((calculate_acceptance_metrics accEvNoField accSt0).2.acceptance_window) ≠
      acceptanceRate accSt0.acceptance_window :=
  ⟨acceptance_default_accept, accNoField_metrics, accNoField_rate_changes⟩


/-- C5, counterexample to the original reading: a `file_edit` event with
no `accepted` field does change the acceptance rate — ten recorded
rejections rate to 0, and after the field-less event the window's rate is
(1/11)·100. -/
theorem claim_C5_counterexample :
    acceptanceRate
        ((calculate_acceptance_metrics accEvNoField accSt0).2.acceptance_window) ≠
      acceptanceRate accSt0.acceptance_window :=
  accNoField_rate_changes

/-- C6: the shared acceptance window does not retain the most recent 100
boolean decisions: the `ZADD` member is `str(int(accepted))`, so the
window collapses to at most the two members `"0"` and `"1"` — after
accept, accept, reject it holds 2 entries and the rate is 50, not the
mean of the three decisions. -/
theorem claim_C6 :
    accSeq.acceptance_window.zcard = 2 ∧
    accSeq.acceptance_window = [("1", 2), ("0", 3)] ∧
    get_acceptance_rate accSeq = 50 ∧
    get_acceptance_rate accSeq ≠ (((1 + 1 + 0 : Nat) : Rat) / 3) * 100 ∧
    0 ≤ get_acceptance_rate accSeq ∧ get_acceptance_rate accSeq ≤ 100 := by
  refine ⟨by decide, accSeq_window, accSeq_rate, ?_, ?_, ?_⟩
  · rw [accSeq_rate]; norm_num
  · rw [accSeq_rate]; norm_num
  · rw [accSeq_rate]; norm_num

/-- C7: on every non-empty latency window the percentiles — sorted window
indexed at the clamped percentile index — satisfy `p50 ≤ p95 ≤ p99`. -/
theorem claim_C7 (values : List Rat) (h : values ≠ []) :
    (get_latency_percentiles values).p50 ≤ (get_latency_percentiles values).p95 ∧
      (get_latency_percentiles values).p95 ≤ (get_latency_percentiles values).p99 :=
  latency_percentiles_mono values h

theorem claim_C7_witness :
    (([5, 1, 3] : List Rat) ≠ []) ∧
    ((get_latency_percentiles [5, 1, 3]).p50 ≤ (get_latency_percentiles [5, 1, 3]).p95 ∧
      (get_latency_percentiles [5, 1, 3]).p95 ≤ (get_latency_percentiles [5, 1, 3]).p99) :=
  ⟨by decide, claim_C7 [5, 1, 3] (by decide)⟩

/-- C8: decompressing the writer's compression of any JSON-representable
event and parsing it back reproduces the event field-for-field. -/
theorem claim_C8 (event : JObj) :
    decompress_event (compress_event event) = some (.obj event) :=
  decompress_compress_event event

/-- C9: in the session-lifecycle scenario the duration is 60 seconds as
claimed, but `tools_per_minute` is 0 rather than 2 — no code path
increments `_session_tool_counts` — and the session's prompt count
survives the session-end cleanup instead of being deleted. -/
theorem claim_C9 :
    sessMs = [⟨"session", "session_duration", (60 : Rat)⟩,
      ⟨"session", "tools_per_minute", 0⟩,
      ⟨"session", "files_per_session", 0⟩] ∧
    aGet sessSt4.tool_counts "Edit" = 2 ∧
    aGet sessSt4.session_tool_counts "s1" = 0 ∧
    ¬Metric.mk "session" "tools_per_minute" 2 ∈ sessMs ∧
    aFind sessSt5.session_starts "s1" = none ∧
    aFind sessSt5.session_tool_counts "s1" = none ∧
    aFind sessSt5.session_prompt_counts "s1" = some 1 := by
  refine ⟨sessMs_eq, by decide, by decide, ?_, by decide, by decide, by decide⟩
  rw [sessMs_eq]
  decide

/-- C10: the priority filter compares the decoded `str` priority against a
list of `int`s, so a delivered CDC message whose priority field decodes
to 2 is not processed by the Metrics worker (priorities `[1, 2, 3]`) but
is acknowledged unprocessed. -/
theorem claim_C10 :
    msgPriority (decode_message c10fields) = PyVal.str "2" ∧
    pyMem (PyVal.str "2") metricsWorkerPriorities = false ∧
    (process_message (some metricsWorkerPriorities) WState.init "1-0" c10fields
      true "" "").2 = false ∧
    (process_message (some metricsWorkerPriorities) WState.init "1-0" c10fields
      true "" "").1.acked = ["1-0"] ∧
    (process_message (some metricsWorkerPriorities) WState.init "1-0" c10fields
      true "" "").1.processed = [] := by decide

end BpTelemetry
